import Mathlib

/-!
Verification development for the simulation orchestration engine of
`gnss-ins-sim` (file `sim/imu_sim.py`).

The engine (`Sim` class) owns a set of named data containers (`Sim_data`),
builds three registries of capability names (constant inputs, varying
inputs, algorithm outputs), binds a user algorithm's declared input/output
names against those registries at construction time, drives a multi-trial
simulation loop, and exposes `results` and `plot` queries.

Shallow embedding conventions used below:

* Python dictionaries are association lists (`List (key × value)`); lookup
  (`dictGet`) returns the first binding, assignment (`dictSet`) replaces
  the existing binding in place or appends, mirroring `dict` semantics.
* Numpy array payloads are opaque tokens (`Arr := Nat`): their numeric
  content is produced by the external collaborators (`pathgen.path_gen`,
  `acc_gen`, `gyro_gen`, `gps_gen`, `mag_gen`) and the engine never
  inspects it.  The external collaborators themselves are an `Oracle`
  record of functions indexed by trial number, which also models the fresh
  stochastic draw each call makes; a call that raises an exception is an
  `Except.error`.
* Python exceptions escaping a method are the `Except.error` case of the
  method's result; for `run`, whose loop mutates the object before an
  exception can escape, the result is the mutated state paired with
  `Option Nat` (`none` = normal return, `some i` = an exception escaped
  while processing trial `i`).
* Python `int()` applied to a float truncates toward zero; floats are
  embedded as rationals and `int()` as `pyInt`.
* The `eval`/`exec` based argument binding of the source is embedded by
  its compiled meaning: the input expression string built by
  `parse_algo_in_out` denotes the list of `AlgoArg` tags below, and
  evaluating it at trial `i` denotes `Sim.buildInputs`.
-/

/-- Opaque numpy-array payload token; contents live in external collaborators. -/
abbrev Arr := Nat

/-- A key of one of the engine's registry dictionaries.  Almost all keys are
name strings; `obj s` stands for a `Sim_data` container object (of name `s`)
used directly as a dictionary key, which Python permits (objects hash by
identity).  The source does exactly that for the GPS time container. -/
inductive RegKey where
  | str (s : String)
  | obj (s : String)
deriving DecidableEq, Repr

/-- First-binding lookup in an association list, the meaning of `d[k]`
returning `some` exactly when `k in d`. -/
def dictGet {α β : Type} [DecidableEq α] : List (α × β) → α → Option β
  | [], _ => none
  | p :: rest, k => if p.1 = k then some p.2 else dictGet rest k

/-- Python `d[k] = v`: replace the binding of `k` in place if present,
otherwise append it. -/
def dictSet {α β : Type} [DecidableEq α] : List (α × β) → α → β → List (α × β)
  | [], k, v => [(k, v)]
  | p :: rest, k, v => if p.1 = k then (k, v) :: rest else p :: dictSet rest k v

/-- Python `d.update(e)`: assign every binding of `e` into `d`, in order. -/
def dictUpdate {α β : Type} [DecidableEq α] (d e : List (α × β)) : List (α × β) :=
  e.foldl (fun acc p => dictSet acc p.1 p.2) d

/-- Python `d.pop(k)`: drop the binding of `k` (first occurrence). -/
def dictPop {α β : Type} [DecidableEq α] : List (α × β) → α → List (α × β)
  | [], _ => []
  | p :: rest, k => if p.1 = k then rest else p :: dictPop rest k

/-- The keys of an association list. -/
def dkeys {α β : Type} (d : List (α × β)) : List α := d.map Prod.fst

/-- IMU configuration consumed by the engine: the two feature flags plus the
four error-model descriptors (opaque to the engine, passed through to the
sensor synthesis collaborators). -/
structure ImuCfg where
  gps : Bool
  magnetometer : Bool
  accel_err : Nat
  gyro_err : Nat
  gps_err : Nat
  mag_err : Nat
deriving DecidableEq, Repr

/-- The `supported_in_constant` registry: name/description pairs of data
identical across trials, built in source order.  When GPS is enabled the
source inserts `self.ref_gps.name` but then `self.gps_time` itself — the
container object, not its `.name` string — as the next key. -/
def supported_in_constant_def (imu : ImuCfg) : List (RegKey × String) :=
  [(RegKey.str "fs", "sample frequency of imu"),
   (RegKey.str "ref_frame", "reference frame"),
   (RegKey.str "ref_pos", "true pos"),
   (RegKey.str "ref_vel", "true vel"),
   (RegKey.str "ref_att", "true attitude (Euler angles, ZYX)"),
   (RegKey.str "ref_gyro", "true angular velocity"),
   (RegKey.str "ref_accel", "true accel")]
  ++ (if imu.gps then
        [(RegKey.str "ref_gps", "true GPS pos/vel"),
         (RegKey.obj "gps_time", "GPS sample time")]
      else [])
  ++ (if imu.magnetometer then [(RegKey.str "ref_mag", "true magnetic field")] else [])

/-- The `supported_in_varying` registry: per-trial sensor data names. -/
def supported_in_varying_def (imu : ImuCfg) : List (RegKey × String) :=
  [(RegKey.str "gyro", "gyro measurements"),
   (RegKey.str "accel", "accel measurements")]
  ++ (if imu.gps then [(RegKey.str "gps", "GPS measurements")] else [])
  ++ (if imu.magnetometer then [(RegKey.str "mag", "magnetometer measurements")] else [])

/-- The `supported_out` registry: algorithm output names handled by the engine. -/
def supported_out_def : List (RegKey × String) :=
  [(RegKey.str "pos", "sim pos"),
   (RegKey.str "vel", "sim vel"),
   (RegKey.str "att_quat", "sim att (quaternion)"),
   (RegKey.str "att_euler", "sim att (Euler angles, ZYX)"),
   (RegKey.str "wb", "gyro bias estimation"),
   (RegKey.str "ab", "accel bias estimation"),
   (RegKey.str "av_t", "Allan var time"),
   (RegKey.str "av_gyro", "Allan var of gyro"),
   (RegKey.str "av_accel", "Allan var of accel")]

/-- One element of the compiled algorithm-input expression: `const n`
denotes the text `self.<n>.data`, `varying n` denotes
`self.<n>.data[NO_OF_SIM]`. -/
inductive AlgoArg where
  | const (name : String)
  | varying (name : String)
deriving DecidableEq, Repr

/-- A user algorithm plugin: its declared input and output capability names. -/
structure Algorithm where
  input : List String
  output : List String
deriving DecidableEq, Repr

/-- Errors raised by engine construction. -/
inductive SimError where
  | valueError (msg : String)
  | typeError (msg : String)
deriving DecidableEq, Repr

/-- A Python argument that may be a string, a numpy array, or anything else
(the engine only ever branches on which of the three it is). -/
inductive PyArg where
  | pystr (s : String)
  | pyarr (a : List ℚ)
  | pyother
deriving DecidableEq, Repr

/-- The motion-definition table as read from the csv file: the engine only
inspects its shape (the numeric rows are consumed by the external
trajectory generator). -/
structure Table where
  rows : Nat
  cols : Nat
deriving DecidableEq, Repr

/-- The built-in `high_mobility` profile `[1.0, 0.5, 2.0]`.  The middle
entry is the rational one half, written as an explicit numerator/denominator
pair so that kernel evaluation of states containing it never has to
normalise a division. -/
def high_mobility : List ℚ := [1, ⟨1, 2, by decide, Nat.coprime_one_left 2⟩, 2]

/-- The input half of `parse_algo_in_out`: each declared input name is
looked up first in the constant registry, then in the varying registry;
an unknown name makes the whole parse fail (`return False`). -/
def parseIns (cdict vdict : List (RegKey × String)) : List String → Option (List AlgoArg)
  | [] => some []
  | i :: rest =>
    if (dictGet cdict (RegKey.str i)).isSome then
      (parseIns cdict vdict rest).map (AlgoArg.const i :: ·)
    else if (dictGet vdict (RegKey.str i)).isSome then
      (parseIns cdict vdict rest).map (AlgoArg.varying i :: ·)
    else
      none

/-- The output half of `parse_algo_in_out`: every declared output name must
be a key of the output registry. -/
def parseOuts (odict : List (RegKey × String)) : List String → Option (List String)
  | [] => some []
  | i :: rest =>
    if (dictGet odict (RegKey.str i)).isSome then
      (parseOuts odict rest).map (i :: ·)
    else
      none

/-- The engine state: the fields of a constructed `Sim` object.  Constant
containers hold `Option Arr` (`none` = the initial empty `{}`), per-trial
containers hold a trial-index dictionary. -/
structure Sim where
  imu : ImuCfg
  sim_complete : Bool
  sim_count : Int
  fs_data : ℚ
  ref_frame_data : ℚ
  vib_def : Option Nat
  mobility : List ℚ
  output_def : List (ℚ × ℚ)
  motion_table : Table
  algo : Option Algorithm
  algo_in_expr : List AlgoArg
  algo_out_expr : List String
  supported_in_constant : List (RegKey × String)
  supported_in_varying : List (RegKey × String)
  supported_out : List (RegKey × String)
  res : List (RegKey × String)
  supported_plot : List (RegKey × String)
  time_data : Option Arr
  ref_pos_data : Option Arr
  ref_vel_data : Option Arr
  ref_att_data : Option Arr
  ref_gyro_data : Option Arr
  ref_accel_data : Option Arr
  gps_time_data : Option Arr
  ref_gps_data : Option Arr
  ref_mag_data : Option Arr
  gyro_data : List (Nat × Arr)
  accel_data : List (Nat × Arr)
  gps_data : List (Nat × Arr)
  mag_data : List (Nat × Arr)
  pos_data : List (Nat × Arr)
  vel_data : List (Nat × Arr)
  att_quat_data : List (Nat × Arr)
  att_euler_data : List (Nat × Arr)
  wb_data : List (Nat × Arr)
  ab_data : List (Nat × Arr)
  av_t_data : List (Nat × Arr)
  av_gyro_data : List (Nat × Arr)
  av_accel_data : List (Nat × Arr)
deriving DecidableEq, Repr

/-- The engine state as `Sim.__init__` leaves it before the algorithm check
(all containers empty, registries built from the feature flags). -/
def baseSim (fs : ℚ × ℚ × ℚ) (imu : ImuCfg) (path : Table) (mobility : List ℚ) : Sim :=
  { imu := imu
    sim_complete := false
    sim_count := 1
    fs_data := fs.1
    ref_frame_data := 0
    vib_def := none
    mobility := mobility
    output_def := [(1, fs.1), if imu.gps then ((1 : ℚ), fs.2.1) else (-1, fs.1)]
    motion_table := path
    algo := none
    algo_in_expr := []
    algo_out_expr := []
    supported_in_constant := supported_in_constant_def imu
    supported_in_varying := supported_in_varying_def imu
    supported_out := supported_out_def
    res := []
    supported_plot := []
    time_data := none
    ref_pos_data := none
    ref_vel_data := none
    ref_att_data := none
    ref_gyro_data := none
    ref_accel_data := none
    gps_time_data := none
    ref_gps_data := none
    ref_mag_data := none
    gyro_data := []
    accel_data := []
    gps_data := []
    mag_data := []
    pos_data := []
    vel_data := []
    att_quat_data := []
    att_euler_data := []
    wb_data := []
    ab_data := []
    av_t_data := []
    av_gyro_data := []
    av_accel_data := [] }

instance : Inhabited Sim :=
  ⟨baseSim (0, 0, 0) ⟨false, false, 0, 0, 0, 0⟩ ⟨2, 9⟩ high_mobility⟩

/-- `Sim.__init__`.  Checks run in source order: motion-definition shape,
then the `mode` argument's type, then the `env` argument's type, then the
algorithm's declared capabilities.  An exception escaping `__init__`
leaves no object behind, so the error cases return no state at all. -/
def Sim.init (fs : ℚ × ℚ × ℚ) (imu : ImuCfg) (path : Table) (mode : PyArg)
    (env : PyArg) (algorithm : Option Algorithm) : Except SimError Sim :=
  if path.rows < 2 ∨ path.cols ≠ 9 then
    .error (.valueError "motion definition file must have nine columns and at least two rows")
  else if mode = PyArg.pyother then
    .error (.typeError "mode should be a string or a numpy array of size 3")
  else if env = PyArg.pyother then
    .error (.typeError "env should be a string or a numpy array of size n 2")
  else
    let mobility := match mode with
      | PyArg.pystr _ => high_mobility
      | PyArg.pyarr a => a
      | PyArg.pyother => high_mobility
    let st := baseSim fs imu path mobility
    match algorithm with
    | none => .ok st
    | some a =>
      if a.input.length < 1 ∨ a.output.length < 1 then
        .error (.valueError "check input and output definitions of the algorithm.")
      else
        match parseIns st.supported_in_constant st.supported_in_varying a.input,
              parseOuts st.supported_out a.output with
        | some ins, some outs =>
          .ok { st with algo := some a, algo_in_expr := ins, algo_out_expr := outs }
        | some _, none =>
          .error (.valueError "check input and output definitions of the algorithm.")
        | none, _ =>
          .error (.valueError "check input and output definitions of the algorithm.")

/-- Python `int()` on an int-or-float value embedded as a rational:
truncation toward zero. -/
def pyInt (q : ℚ) : Int := if q < 0 then ⌈q⌉ else ⌊q⌋

/-- A value passed to the algorithm: a scalar (`fs`, `ref_frame`), an array
payload, the empty `{}` of a never-populated container, or the marker of a
`KeyError` on a missing per-trial entry (unreachable for states built by
`Sim.init` and run through `Sim.run`). -/
inductive Val where
  | num (q : ℚ)
  | arr (a : Arr)
  | emptyDict
  | keyError
deriving DecidableEq, Repr

/-- The result of the single `pathgen.path_gen` call, already sliced into
the series the engine stores (the slicing itself is numpy arithmetic on
external data). -/
structure PathGenOut where
  nav_time : Arr
  ref_pos : Arr
  ref_vel : Arr
  ref_att : Arr
  ref_accel : Arr
  ref_gyro : Arr
  gps_time : Arr
  ref_gps : Arr
  ref_mag : Arr
deriving DecidableEq, Repr

/-- The external collaborators invoked by `run`.  Each synthesis function
takes the trial number first (modelling the fresh stochastic draw of each
call) and then the arguments the source passes; `Except.error` models the
call raising an exception.  `algo_run` combines `algo.run(inputs)` with the
following `algo.get_results()`. -/
structure Oracle where
  pathgen : PathGenOut
  acc_gen : Nat → ℚ → Option Arr → Nat → Option Nat → Except Unit Arr
  gyro_gen : Nat → ℚ → Option Arr → Nat → Except Unit Arr
  gps_gen : Nat → Option Arr → Nat → ℚ → Except Unit Arr
  mag_gen : Nat → Option Arr → Nat → Except Unit Arr
  algo_run : Nat → List Val → Except Unit (List Arr)

/-- Store the reference data returned by `path_gen` into the constant
containers; GPS and magnetometer series only when the flags are on. -/
def populateRef (o : Oracle) (st : Sim) : Sim :=
  let r := o.pathgen
  let st1 := { st with
    time_data := some r.nav_time
    ref_pos_data := some r.ref_pos
    ref_vel_data := some r.ref_vel
    ref_att_data := some r.ref_att
    ref_accel_data := some r.ref_accel
    ref_gyro_data := some r.ref_gyro }
  let st2 := if st1.imu.gps then
      { st1 with gps_time_data := some r.gps_time, ref_gps_data := some r.ref_gps }
    else st1
  if st2.imu.magnetometer then { st2 with ref_mag_data := some r.ref_mag } else st2

/-- The value of `self.<name>.data` for a constant-registry name. -/
def Sim.constData (st : Sim) (name : String) : Val :=
  match name with
  | "fs" => Val.num st.fs_data
  | "ref_frame" => Val.num st.ref_frame_data
  | "ref_pos" => (st.ref_pos_data.map Val.arr).getD Val.emptyDict
  | "ref_vel" => (st.ref_vel_data.map Val.arr).getD Val.emptyDict
  | "ref_att" => (st.ref_att_data.map Val.arr).getD Val.emptyDict
  | "ref_gyro" => (st.ref_gyro_data.map Val.arr).getD Val.emptyDict
  | "ref_accel" => (st.ref_accel_data.map Val.arr).getD Val.emptyDict
  | "ref_gps" => (st.ref_gps_data.map Val.arr).getD Val.emptyDict
  | _ => Val.emptyDict

/-- The per-trial dictionary of a varying-registry name. -/
def Sim.varyingDict (st : Sim) (name : String) : List (Nat × Arr) :=
  match name with
  | "gyro" => st.gyro_data
  | "accel" => st.accel_data
  | "gps" => st.gps_data
  | "mag" => st.mag_data
  | _ => []

/-- Evaluate the compiled input expression at trial `i`: the meaning of
`eval(self.algo_in_expr.replace('NO_OF_SIM', str(i)))`. -/
def Sim.buildInputs (st : Sim) (i : Nat) : List Val :=
  st.algo_in_expr.map fun arg =>
    match arg with
    | AlgoArg.const n => st.constData n
    | AlgoArg.varying n =>
      match dictGet (st.varyingDict n) i with
      | some a => Val.arr a
      | none => Val.keyError

/-- Write one algorithm output value into the container named `name` at
trial `i` (the meaning of one target of the generated `exec` assignment).
Bound output names always come from the output registry, so the catch-all
branch is unreachable for validated algorithms. -/
def setOutData (st : Sim) (name : String) (i : Nat) (v : Arr) : Sim :=
  match name with
  | "pos" => { st with pos_data := dictSet st.pos_data i v }
  | "vel" => { st with vel_data := dictSet st.vel_data i v }
  | "att_quat" => { st with att_quat_data := dictSet st.att_quat_data i v }
  | "att_euler" => { st with att_euler_data := dictSet st.att_euler_data i v }
  | "wb" => { st with wb_data := dictSet st.wb_data i v }
  | "ab" => { st with ab_data := dictSet st.ab_data i v }
  | "av_t" => { st with av_t_data := dictSet st.av_t_data i v }
  | "av_gyro" => { st with av_gyro_data := dictSet st.av_gyro_data i v }
  | "av_accel" => { st with av_accel_data := dictSet st.av_accel_data i v }
  | _ => st

/-- Unpack the algorithm's results into the output containers, left to
right (arity already checked). -/
def storeOutputs (st : Sim) (i : Nat) : List String → List Arr → Sim
  | [], _ => st
  | _, [] => st
  | n :: ns, v :: vs => storeOutputs (setOutData st n i v) i ns vs

/-- Exception-aware sequencing of the statements inside one loop body:
the continuation runs only if no exception was raised so far. -/
def andThen (r : Sim × Bool) (f : Sim → Sim × Bool) : Sim × Bool :=
  if r.2 then f r.1 else r

/-- `self.accel.data[i] = pathgen.acc_gen(self.fs.data, self.ref_accel.data,
self.imu.accel_err, self.vib_def)`. -/
def stepAccel (o : Oracle) (i : Nat) (st : Sim) : Sim × Bool :=
  match o.acc_gen i st.fs_data st.ref_accel_data st.imu.accel_err st.vib_def with
  | .ok a => ({ st with accel_data := dictSet st.accel_data i a }, true)
  | .error _ => (st, false)

/-- `self.gyro.data[i] = pathgen.gyro_gen(self.fs.data, self.ref_gyro.data,
self.imu.gyro_err)`. -/
def stepGyro (o : Oracle) (i : Nat) (st : Sim) : Sim × Bool :=
  match o.gyro_gen i st.fs_data st.ref_gyro_data st.imu.gyro_err with
  | .ok g => ({ st with gyro_data := dictSet st.gyro_data i g }, true)
  | .error _ => (st, false)

/-- GPS synthesis, only when the GPS flag is on. -/
def stepGps (o : Oracle) (i : Nat) (st : Sim) : Sim × Bool :=
  if st.imu.gps then
    match o.gps_gen i st.ref_gps_data st.imu.gps_err st.ref_frame_data with
    | .ok v => ({ st with gps_data := dictSet st.gps_data i v }, true)
    | .error _ => (st, false)
  else (st, true)

/-- Magnetometer synthesis, only when the magnetometer flag is on. -/
def stepMag (o : Oracle) (i : Nat) (st : Sim) : Sim × Bool :=
  if st.imu.magnetometer then
    match o.mag_gen i st.ref_mag_data st.imu.mag_err with
    | .ok v => ({ st with mag_data := dictSet st.mag_data i v }, true)
    | .error _ => (st, false)
  else (st, true)

/-- Algorithm invocation for one trial, when an algorithm is bound: build
the inputs, run the algorithm, unpack `get_results()` into the output
containers (a result count different from the declared output count makes
the unpacking assignment raise). -/
def stepAlgo (o : Oracle) (i : Nat) (st : Sim) : Sim × Bool :=
  match st.algo with
  | none => (st, true)
  | some _ =>
    match o.algo_run i (st.buildInputs i) with
    | .error _ => (st, false)
    | .ok outs =>
      if outs.length = st.algo_out_expr.length then
        (storeOutputs st i st.algo_out_expr outs, true)
      else (st, false)

/-- The body of `for i in range(0, self.sim_count)` at trial `i`. -/
def runTrial (o : Oracle) (i : Nat) (st : Sim) : Sim × Bool :=
  andThen (stepAccel o i st) fun st1 =>
  andThen (stepGyro o i st1) fun st2 =>
  andThen (stepGps o i st2) fun st3 =>
  andThen (stepMag o i st3) fun st4 =>
  stepAlgo o i st4

/-- The trial loop starting at index `i` with `fuel` trials left.  Returns
the mutated state and `some f` when an exception escaped while processing
trial `f` (aborting the remaining trials), `none` when all trials ran. -/
def runTrialsFrom (o : Oracle) : Nat → Nat → Sim → Sim × Option Nat
  | _, 0, st => (st, none)
  | i, fuel + 1, st =>
    match runTrial o i st with
    | (st', true) => runTrialsFrom o (i + 1) fuel st'
    | (st', false) => (st', some i)

/-- Coerce `num_times` as `run` does: `int()` then clamp to at least 1. -/
def clampCount (num_times : ℚ) : Int :=
  let c := pyInt num_times
  if c < 1 then 1 else c

/-- `Sim.run(num_times)`: coerce the trial count, regenerate the reference
data, run the trial loop, and set the completion flag only when the loop
finished.  The `Option Nat` component reports an escaped exception with
its trial index; note that a failing run leaves `sim_complete` at its
previous value (the source never resets it). -/
def Sim.run (o : Oracle) (st : Sim) (num_times : ℚ) : Sim × Option Nat :=
  let c := clampCount num_times
  let st1 := populateRef o { st with sim_count := c }
  match runTrialsFrom o 0 c.toNat st1 with
  | (st2, none) => ({ st2 with sim_complete := true }, none)
  | (st2, some f) => (st2, some f)

/-- The loop `for i in self.algo.output: self.res[i] = self.supported_out[i]`
inside `results()`.  A name missing from the output registry would raise a
`KeyError` in Python; that case is unreachable for algorithms that passed
binding, and is marked by the `getD` fallback here. -/
def addAlgoOutputs (sd : List (RegKey × String)) (res : List (RegKey × String))
    (outs : List String) : List (RegKey × String) :=
  outs.foldl
    (fun r i => dictSet r (RegKey.str i) ((dictGet sd (RegKey.str i)).getD "KeyError"))
    res

/-- `Sim.results()`: when the completion flag is set, rebuild `self.res`
from the registries and the bound algorithm's declared outputs and rebuild
`self.supported_plot` by popping the non-plottable entries; otherwise
return the cached `self.res` unchanged.  The pair is (mutated state,
returned dictionary). -/
def Sim.results (st : Sim) : Sim × List (RegKey × String) :=
  if st.sim_complete then
    let res0 := dictUpdate st.supported_in_constant st.supported_in_varying
    let res1 := match st.algo with
      | some a => addAlgoOutputs st.supported_out res0 a.output
      | none => res0
    let sp := dictPop (dictPop res1 (RegKey.str "fs")) (RegKey.str "ref_frame")
    ({ st with res := res1, supported_plot := sp }, res1)
  else (st, st.res)

/-- A Python number appearing in a trial-selector list. -/
inductive PyNum where
  | int (n : Int)
  | float (q : ℚ)
deriving DecidableEq, Repr

/-- `int()` applied to a selector element. -/
def PyNum.toInt : PyNum → Int
  | PyNum.int n => n
  | PyNum.float q => pyInt q

/-- The `sim_idx` argument of `plot`. -/
inductive SimIdxArg where
  | absent
  | scalarInt (n : Int)
  | scalarFloat (q : ℚ)
  | lst (xs : List PyNum)
deriving DecidableEq, Repr

/-- Normalisation of `sim_idx` before the range check: `None` becomes
`list(range(sim_count))`, a scalar becomes a one-element list, and every
list element passes through `int()`. -/
def convertSimIdx (sel : SimIdxArg) (sim_count : Int) : List Int :=
  match sel with
  | SimIdxArg.absent => (List.range sim_count.toNat).map Int.ofNat
  | SimIdxArg.scalarInt n => [n]
  | SimIdxArg.scalarFloat q => [pyInt q]
  | SimIdxArg.lst xs => xs.map PyNum.toInt

/-- `list.remove(v)`: drop the first occurrence of `v` (it is always
present when `plot` calls this). -/
def eraseFirst : List Int → Int → List Int
  | [], _ => []
  | a :: t, v => if a = v then t else a :: eraseFirst t v

/-- The trial-selector resolution of `plot`: collect every out-of-range
index (each is warned about) and then remove them one by one from the
selector list.  Returns (surviving indices, warned indices). -/
def resolveSimIdx (sel : SimIdxArg) (sim_count : Int) : List Int × List Int :=
  let l := convertSimIdx sel sim_count
  let invalid := l.filter fun x => decide (sim_count ≤ x) || decide (x < 0)
  (invalid.foldl eraseFirst l, invalid)

/-- The observable decisions of `Sim.plot`: which trial indices survive the
range check, which were warned about and dropped, and which requested
names are dispatched to the renderer versus reported unsupported.  The
chart drawing itself happens in the external matplotlib collaborator. -/
structure PlotOutcome where
  valid_idx : List Int
  warned_idx : List Int
  plotted : List String
  unsupported : List String
deriving DecidableEq, Repr

/-- `Sim.plot(what_to_plot, sim_idx)`. -/
def Sim.plot (st : Sim) (what_to_plot : List String) (sim_idx : SimIdxArg) : PlotOutcome :=
  let r := resolveSimIdx sim_idx st.sim_count
  { valid_idx := r.1
    warned_idx := r.2
    plotted := what_to_plot.filter fun i => (dictGet st.supported_plot (RegKey.str i)).isSome
    unsupported := what_to_plot.filter fun i => !(dictGet st.supported_plot (RegKey.str i)).isSome }

/-! ### Dictionary lemmas -/

theorem dictGet_dictSet {α β : Type} [DecidableEq α] (d : List (α × β)) (k k' : α) (v : β) :
    dictGet (dictSet d k v) k' = if k = k' then some v else dictGet d k' := by
  induction d with
  | nil => by_cases h : k = k' <;> simp [dictSet, dictGet, h]
  | cons p rest ih =>
    by_cases h : p.1 = k
    · by_cases h2 : k = k'
      · simp [dictSet, dictGet, h, h2]
      · have h3 : ¬ p.1 = k' := by rw [h]; exact h2
        simp [dictSet, dictGet, h, h2, h3]
    · by_cases h3 : p.1 = k'
      · have h2 : ¬ k = k' := fun e => h (h3.trans e.symm)
        have h4 : ¬ k' = k := fun e => h2 e.symm
        simp [dictSet, dictGet, h, h2, h3, h4]
      · simp [dictSet, dictGet, h, h3, ih]

theorem dictGet_eq_none_iff {α β : Type} [DecidableEq α] (d : List (α × β)) (k : α) :
    dictGet d k = none ↔ k ∉ dkeys d := by
  induction d with
  | nil => simp [dictGet, dkeys]
  | cons p rest ih =>
    by_cases h : p.1 = k
    · subst h
      simp [dictGet, dkeys]
    · have h' : ¬ k = p.1 := fun e => h e.symm
      simp [dictGet, dkeys, h, h', ih]

theorem dictGet_isSome_iff {α β : Type} [DecidableEq α] (d : List (α × β)) (k : α) :
    (dictGet d k).isSome ↔ k ∈ dkeys d := by
  rw [Option.isSome_iff_ne_none, Ne, dictGet_eq_none_iff, not_not]

theorem dictGet_dictUpdate {α β : Type} [DecidableEq α] (e : List (α × β)) :
    ∀ (d : List (α × β)) (k : α), (dkeys e).Nodup →
      dictGet (dictUpdate d e) k =
        if (dictGet e k).isSome then dictGet e k else dictGet d k := by
  induction e with
  | nil => intro d k _; simp [dictUpdate, dictGet]
  | cons p rest ih =>
    intro d k hnd
    have hnd' : (p.1 :: dkeys rest).Nodup := hnd
    have hnd1 : p.1 ∉ dkeys rest := (List.nodup_cons.mp hnd').1
    have hnd2 : (dkeys rest).Nodup := (List.nodup_cons.mp hnd').2
    have step : dictUpdate d (p :: rest) = dictUpdate (dictSet d p.1 p.2) rest := rfl
    rw [step, ih _ k hnd2]
    by_cases h : p.1 = k
    · subst h
      have hrest : dictGet rest p.1 = none := (dictGet_eq_none_iff rest p.1).mpr hnd1
      simp [dictGet, hrest, dictGet_dictSet]
    · have h' : ¬ k = p.1 := fun e => h e.symm
      simp [dictGet, h, h', dictGet_dictSet]

theorem dkeys_cons {α β : Type} (p : α × β) (l : List (α × β)) :
    dkeys (p :: l) = p.1 :: dkeys l := rfl

theorem dkeys_dictSet_subset {α β : Type} [DecidableEq α] (d : List (α × β)) (k k' : α) (v : β) :
    k' ∈ dkeys (dictSet d k v) → k' = k ∨ k' ∈ dkeys d := by
  induction d with
  | nil =>
    intro h
    rw [show dictSet ([] : List (α × β)) k v = [(k, v)] from rfl, dkeys_cons] at h
    rcases List.mem_cons.mp h with h1 | h2
    · exact Or.inl h1
    · exact absurd h2 (by simp [dkeys])
  | cons p rest ih =>
    intro hmem
    by_cases h : p.1 = k
    · rw [show dictSet (p :: rest) k v = (k, v) :: rest from by simp [dictSet, h],
        dkeys_cons] at hmem
      rcases List.mem_cons.mp hmem with h1 | h2
      · exact Or.inl h1
      · exact Or.inr (by rw [dkeys_cons]; exact List.mem_cons_of_mem _ h2)
    · rw [show dictSet (p :: rest) k v = p :: dictSet rest k v from by simp [dictSet, h],
        dkeys_cons] at hmem
      rcases List.mem_cons.mp hmem with h1 | h2
      · exact Or.inr (by rw [dkeys_cons]; exact List.mem_cons.mpr (Or.inl h1))
      · rcases ih h2 with h3 | h4
        · exact Or.inl h3
        · exact Or.inr (by rw [dkeys_cons]; exact List.mem_cons_of_mem _ h4)

theorem dkeys_dictUpdate_subset {α β : Type} [DecidableEq α] (e : List (α × β)) :
    ∀ (d : List (α × β)) (k : α), k ∈ dkeys (dictUpdate d e) → k ∈ dkeys d ∨ k ∈ dkeys e := by
  induction e with
  | nil => intro d k h; exact Or.inl h
  | cons p rest ih =>
    intro d k h
    have step : dictUpdate d (p :: rest) = dictUpdate (dictSet d p.1 p.2) rest := rfl
    rw [step] at h
    rcases ih _ k h with h1 | h2
    · rcases dkeys_dictSet_subset d p.1 k p.2 h1 with h3 | h4
      · exact Or.inr (by simp [dkeys, h3])
      · exact Or.inl h4
    · exact Or.inr (by simp [dkeys] at h2 ⊢; exact Or.inr h2)

theorem dictGet_addAlgoOutputs_not_mem (sd : List (RegKey × String)) :
    ∀ (outs : List String) (res : List (RegKey × String)) (k : RegKey),
      (∀ s ∈ outs, RegKey.str s ≠ k) →
      dictGet (addAlgoOutputs sd res outs) k = dictGet res k := by
  intro outs
  induction outs with
  | nil => intro res k _; rfl
  | cons t rest ih =>
    intro res k hk
    have step : addAlgoOutputs sd res (t :: rest) =
        addAlgoOutputs sd (dictSet res (RegKey.str t) ((dictGet sd (RegKey.str t)).getD "KeyError")) rest := rfl
    rw [step, ih _ k (fun s hs => hk s (List.mem_cons_of_mem t hs)), dictGet_dictSet]
    simp [hk t (List.mem_cons_self t rest)]

theorem dictGet_addAlgoOutputs_mem (sd : List (RegKey × String)) :
    ∀ (outs : List String) (res : List (RegKey × String)) (s : String),
      s ∈ outs →
      dictGet (addAlgoOutputs sd res outs) (RegKey.str s) =
        some ((dictGet sd (RegKey.str s)).getD "KeyError") := by
  intro outs
  induction outs with
  | nil => intro res s h; exact absurd h (List.not_mem_nil s)
  | cons t rest ih =>
    intro res s hs
    have step : addAlgoOutputs sd res (t :: rest) =
        addAlgoOutputs sd (dictSet res (RegKey.str t) ((dictGet sd (RegKey.str t)).getD "KeyError")) rest := rfl
    by_cases hmem : s ∈ rest
    · rw [step]
      exact ih _ s hmem
    · have hst : s = t := by
        rcases List.mem_cons.mp hs with h | h
        · exact h
        · exact absurd h hmem
      subst hst
      have hne : ∀ x ∈ rest, RegKey.str x ≠ RegKey.str s := by
        intro x hx e
        have hxs : x = s := RegKey.str.inj e
        exact hmem (hxs ▸ hx)
      rw [step, dictGet_addAlgoOutputs_not_mem sd rest _ (RegKey.str s) hne, dictGet_dictSet]
      simp

theorem dkeys_addAlgoOutputs_subset (sd : List (RegKey × String)) :
    ∀ (outs : List String) (res : List (RegKey × String)) (k : RegKey),
      k ∈ dkeys (addAlgoOutputs sd res outs) →
      k ∈ dkeys res ∨ ∃ s ∈ outs, k = RegKey.str s := by
  intro outs
  induction outs with
  | nil => intro res k h; exact Or.inl h
  | cons t rest ih =>
    intro res k h
    have step : addAlgoOutputs sd res (t :: rest) =
        addAlgoOutputs sd (dictSet res (RegKey.str t) ((dictGet sd (RegKey.str t)).getD "KeyError")) rest := rfl
    rw [step] at h
    rcases ih _ k h with h1 | h2
    · rcases dkeys_dictSet_subset res (RegKey.str t) k _ h1 with h3 | h4
      · exact Or.inr ⟨t, List.mem_cons_self t rest, h3⟩
      · exact Or.inl h4
    · rcases h2 with ⟨s, hs, hk⟩
      exact Or.inr ⟨s, List.mem_cons_of_mem t hs, hk⟩

/-! ### Binding lemmas -/

theorem parseIns_none_of_unknown (cdict vdict : List (RegKey × String)) :
    ∀ (inp : List String) (s : String), s ∈ inp →
      dictGet cdict (RegKey.str s) = none → dictGet vdict (RegKey.str s) = none →
      parseIns cdict vdict inp = none := by
  intro inp
  induction inp with
  | nil => intro s h; exact absurd h (List.not_mem_nil s)
  | cons i rest ih =>
    intro s hs hc hv
    rcases List.mem_cons.mp hs with h | h
    · subst h
      simp [parseIns, hc, hv]
    · by_cases h1 : (dictGet cdict (RegKey.str i)).isSome
      · simp [parseIns, h1, ih s h hc hv]
      · by_cases h2 : (dictGet vdict (RegKey.str i)).isSome
        · simp [parseIns, h1, h2, ih s h hc hv]
        · simp [parseIns, h1, h2]

theorem parseOuts_none_of_unknown (odict : List (RegKey × String)) :
    ∀ (out : List String) (s : String), s ∈ out →
      dictGet odict (RegKey.str s) = none →
      parseOuts odict out = none := by
  intro out
  induction out with
  | nil => intro s h; exact absurd h (List.not_mem_nil s)
  | cons i rest ih =>
    intro s hs ho
    rcases List.mem_cons.mp hs with h | h
    · subst h
      simp [parseOuts, ho]
    · by_cases h1 : (dictGet odict (RegKey.str i)).isSome
      · simp [parseOuts, h1, ih s h ho]
      · simp [parseOuts, h1]

theorem parseOuts_sound (odict : List (RegKey × String)) :
    ∀ (out : List String) (res : List String), parseOuts odict out = some res →
      res = out ∧ ∀ s ∈ out, (dictGet odict (RegKey.str s)).isSome := by
  intro out
  induction out with
  | nil =>
    intro res h
    simp [parseOuts] at h
    subst h
    exact ⟨rfl, by intro s hs; exact absurd hs (List.not_mem_nil s)⟩
  | cons i rest ih =>
    intro res h
    by_cases h1 : (dictGet odict (RegKey.str i)).isSome
    · simp [parseOuts, h1] at h
      rcases h with ⟨res', hres', hcons⟩
      rcases ih res' hres' with ⟨he, hall⟩
      subst he
      constructor
      · exact hcons.symm
      · intro s hs
        rcases List.mem_cons.mp hs with h2 | h2
        · rwa [h2]
        · exact hall s h2
    · simp [parseOuts, h1] at h

theorem Sim.init_ok_spec (fs : ℚ × ℚ × ℚ) (imu : ImuCfg) (path : Table) (mode env : PyArg)
    (algorithm : Option Algorithm) (st : Sim)
    (h : Sim.init fs imu path mode env algorithm = .ok st) :
    st.sim_complete = false ∧ st.sim_count = 1 ∧ st.vib_def = none ∧ st.res = [] ∧
    st.imu = imu ∧
    st.supported_in_constant = supported_in_constant_def imu ∧
    st.supported_in_varying = supported_in_varying_def imu ∧
    st.supported_out = supported_out_def ∧
    st.algo = algorithm ∧
    (∀ a, algorithm = some a →
      st.algo_out_expr = a.output ∧
      (∀ s ∈ a.output, (dictGet supported_out_def (RegKey.str s)).isSome) ∧
      (∃ ins, parseIns (supported_in_constant_def imu) (supported_in_varying_def imu)
        a.input = some ins ∧ st.algo_in_expr = ins)) := by
  simp only [Sim.init] at h
  split at h
  · exact absurd h (by simp)
  split at h
  · exact absurd h (by simp)
  split at h
  · exact absurd h (by simp)
  split at h
  · -- algorithm is None
    injection h with h'
    subst h'
    refine ⟨rfl, rfl, rfl, rfl, rfl, rfl, rfl, rfl, rfl, ?_⟩
    intro a ha
    cases ha
  · -- algorithm is some a0
    rename_i a0
    split at h
    · exact absurd h (by simp)
    split at h
    · -- both parses succeeded
      rename_i ins outs hins houts
      injection h with h'
      subst h'
      rcases parseOuts_sound _ _ _ houts with ⟨he, hall⟩
      refine ⟨rfl, rfl, rfl, rfl, rfl, rfl, rfl, rfl, rfl, ?_⟩
      intro a ha
      injection ha with ha'
      subst ha'
      refine ⟨by simpa [baseSim] using he, hall, ⟨ins, ?_, rfl⟩⟩
      simpa [baseSim] using hins
    · exact absurd h (by simp)
    · exact absurd h (by simp)

/-! ### Concrete fixtures used by witnesses -/

/-- Sampling rates of the spec's concrete scenario: 100 Hz IMU, 10 Hz GPS. -/
def wfs : ℚ × ℚ × ℚ := (100, 10, 0)

/-- A sensor configuration with GPS and magnetometer both disabled. -/
def wImu : ImuCfg :=
  { gps := false, magnetometer := false, accel_err := 0, gyro_err := 0, gps_err := 0, mag_err := 0 }

/-- A sensor configuration with GPS enabled. -/
def wImuGps : ImuCfg :=
  { gps := true, magnetometer := false, accel_err := 0, gyro_err := 0, gps_err := 0, mag_err := 0 }

/-- A well-formed two-row, nine-column motion definition table. -/
def wTable : Table := { rows := 2, cols := 9 }

/-! ### C1 -/

/-- C1: if an algorithm declares an input name that is a key of neither the
constant-input registry nor the varying-input registry, or an output name
that is not a key of the output registry, then `Sim.__init__` (which
performs the binding via `parse_algo_in_out`) raises before returning, so
no engine object is ever constructed: no partial binding survives and
nothing can later call `run` on it. -/
theorem bind_unknown_name_rejected (fs : ℚ × ℚ × ℚ) (imu : ImuCfg) (path : Table)
    (mode env : PyArg) (a : Algorithm)
    (hbad :
      (∃ s ∈ a.input, dictGet (supported_in_constant_def imu) (RegKey.str s) = none ∧
        dictGet (supported_in_varying_def imu) (RegKey.str s) = none) ∨
      (∃ s ∈ a.output, dictGet supported_out_def (RegKey.str s) = none)) :
    ∀ st : Sim, Sim.init fs imu path mode env (some a) ≠ .ok st := by
  intro st h
  rcases Sim.init_ok_spec _ _ _ _ _ _ _ h with
    ⟨_, _, _, _, _, _, _, _, _, hbind⟩
  rcases hbind a rfl with ⟨_, hout, ⟨ins, hins, _⟩⟩
  rcases hbad with ⟨s, hs, hc, hv⟩ | ⟨s, hs, ho⟩
  · rw [parseIns_none_of_unknown _ _ a.input s hs hc hv] at hins
    cases hins
  · have := hout s hs
    rw [ho] at this
    cases this

/-- Witness for C1: an algorithm declaring the input `"unknown_sensor"`
cannot be bound (GPS/mag disabled configuration, valid table and mode/env). -/
theorem bind_unknown_name_rejected_witness :
    ((∃ s ∈ (["unknown_sensor"] : List String),
        dictGet (supported_in_constant_def wImu) (RegKey.str s) = none ∧
        dictGet (supported_in_varying_def wImu) (RegKey.str s) = none) ∨
      (∃ s ∈ (["pos"] : List String), dictGet supported_out_def (RegKey.str s) = none)) ∧
    ∀ st : Sim,
      Sim.init wfs wImu wTable (PyArg.pystr "flight") (PyArg.pystr "2g_random")
        (some { input := ["unknown_sensor"], output := ["pos"] }) ≠ .ok st :=
  ⟨by decide,
   bind_unknown_name_rejected wfs wImu wTable (PyArg.pystr "flight") (PyArg.pystr "2g_random")
     { input := ["unknown_sensor"], output := ["pos"] } (by decide)⟩

/-! ### C2 -/

/-- C2 (divergence witness): with GPS enabled, the constant-input registry
does NOT contain the name string `"gps_time"`; the binding it was meant to
carry sits under the container object itself (`RegKey.obj "gps_time"`),
because line 138 of the source writes `self.supported_in_constant[self.gps_time]`
instead of `self.supported_in_constant[self.gps_time.name]`.  Hence the
claim that every key of each registry is the container's name string, and
that the GPS time base is registered by name when GPS is enabled, fails;
in particular `"gps_time"` can never be bound as an algorithm input.  The
other GPS-related names behave as the claim states. -/
theorem registry_gps_time_key_bug :
    dictGet (supported_in_constant_def wImuGps) (RegKey.str "gps_time") = none ∧
    dictGet (supported_in_constant_def wImuGps) (RegKey.obj "gps_time") = some "GPS sample time" ∧
    RegKey.str "gps_time" ∉ dkeys (supported_in_constant_def wImuGps) ∧
    parseIns (supported_in_constant_def wImuGps) (supported_in_varying_def wImuGps)
      ["gps_time"] = none ∧
    dictGet (supported_in_constant_def wImuGps) (RegKey.str "ref_gps") = some "true GPS pos/vel" ∧
    dictGet (supported_in_varying_def wImuGps) (RegKey.str "gps") = some "GPS measurements" ∧
    dictGet (supported_in_constant_def wImu) (RegKey.str "ref_gps") = none ∧
    dictGet (supported_in_varying_def wImu) (RegKey.str "gps") = none := by
  decide

/-! ### C7 -/

/-- C7: a motion-definition table with fewer than 2 rows or a column count
other than 9 makes construction fail with the `ValueError` configuration
error, and any well-shaped table lets construction succeed when the other
arguments are valid (string/array mode and env, no algorithm). -/
theorem motion_def_shape_check (fs : ℚ × ℚ × ℚ) (imu : ImuCfg) (path : Table)
    (mode env : PyArg) (algorithm : Option Algorithm) :
    (path.rows < 2 ∨ path.cols ≠ 9 →
      ∃ msg, Sim.init fs imu path mode env algorithm = .error (SimError.valueError msg)) ∧
    (2 ≤ path.rows → path.cols = 9 → mode ≠ PyArg.pyother → env ≠ PyArg.pyother →
      ∃ st, Sim.init fs imu path mode env none = .ok st) := by
  constructor
  · intro hbad
    refine ⟨"motion definition file must have nine columns and at least two rows", ?_⟩
    simp only [Sim.init]
    rw [if_pos hbad]
  · intro h1 h2 h3 h4
    have hmain : Sim.init fs imu path mode env none =
        .ok (baseSim fs imu path (match mode with
          | PyArg.pystr _ => high_mobility
          | PyArg.pyarr a => a
          | PyArg.pyother => high_mobility)) := by
      simp only [Sim.init]
      rw [if_neg (by push_neg; exact ⟨by omega, h2⟩), if_neg h3, if_neg h4]
      cases mode <;> rfl
    exact ⟨_, hmain⟩

/-- Witness for C7: a one-row table is rejected, a two-row nine-column
table is accepted. -/
theorem motion_def_shape_check_witness :
    (((1 : Nat) < 2 ∨ (9 : Nat) ≠ 9) ∧
      ∃ msg, Sim.init wfs wImu { rows := 1, cols := 9 } (PyArg.pystr "flight")
        (PyArg.pystr "2g_random") none = .error (SimError.valueError msg)) ∧
    (((2 : Nat) ≤ 2 ∧ (9 : Nat) = 9 ∧ PyArg.pystr "flight" ≠ PyArg.pyother ∧
        PyArg.pystr "2g_random" ≠ PyArg.pyother) ∧
      ∃ st, Sim.init wfs wImu wTable (PyArg.pystr "flight")
        (PyArg.pystr "2g_random") none = .ok st) :=
  ⟨⟨Or.inl (by decide),
    (motion_def_shape_check wfs wImu { rows := 1, cols := 9 } (PyArg.pystr "flight")
      (PyArg.pystr "2g_random") none).1 (Or.inl (by decide))⟩,
   ⟨⟨by decide, rfl, by decide, by decide⟩,
    (motion_def_shape_check wfs wImu wTable (PyArg.pystr "flight")
      (PyArg.pystr "2g_random") none).2 (by decide) rfl (by decide) (by decide)⟩⟩

/-! ### Invariants of the trial loop -/

/-- The tuple of `Sim` fields that a single trial never writes. -/
def staticPart (st : Sim) :=
  (st.imu, st.sim_complete, st.sim_count, st.fs_data, st.ref_frame_data, st.vib_def,
   st.mobility, st.output_def, st.motion_table, st.algo, st.algo_in_expr, st.algo_out_expr,
   st.supported_in_constant, st.supported_in_varying, st.supported_out, st.res,
   st.supported_plot, st.time_data, st.ref_pos_data, st.ref_vel_data, st.ref_att_data,
   st.ref_gyro_data, st.ref_accel_data, st.gps_time_data, st.ref_gps_data, st.ref_mag_data)

/-- `st'` agrees with `st` on every field the trial loop never writes. -/
def staticEq (st st' : Sim) : Prop := staticPart st' = staticPart st

theorem staticEq_trans {a b c : Sim} (h1 : staticEq a b) (h2 : staticEq b c) :
    staticEq a c := h2.trans h1

theorem staticEq_imu {a b : Sim} (h : staticEq a b) : b.imu = a.imu :=
  congrArg (fun t => t.1) h

theorem staticEq_sim_complete {a b : Sim} (h : staticEq a b) :
    b.sim_complete = a.sim_complete :=
  congrArg (fun t => t.2.1) h

theorem staticEq_sim_count {a b : Sim} (h : staticEq a b) : b.sim_count = a.sim_count :=
  congrArg (fun t => t.2.2.1) h

theorem staticEq_fs_data {a b : Sim} (h : staticEq a b) : b.fs_data = a.fs_data :=
  congrArg (fun t => t.2.2.2.1) h

theorem staticEq_vib_def {a b : Sim} (h : staticEq a b) : b.vib_def = a.vib_def :=
  congrArg (fun t => t.2.2.2.2.2.1) h

theorem staticEq_algo {a b : Sim} (h : staticEq a b) : b.algo = a.algo :=
  congrArg (fun t => t.2.2.2.2.2.2.2.2.2.1) h

theorem staticEq_algo_out_expr {a b : Sim} (h : staticEq a b) :
    b.algo_out_expr = a.algo_out_expr :=
  congrArg (fun t => t.2.2.2.2.2.2.2.2.2.2.2.1) h

theorem staticEq_supported_in_constant {a b : Sim} (h : staticEq a b) :
    b.supported_in_constant = a.supported_in_constant :=
  congrArg (fun t => t.2.2.2.2.2.2.2.2.2.2.2.2.1) h

theorem staticEq_supported_in_varying {a b : Sim} (h : staticEq a b) :
    b.supported_in_varying = a.supported_in_varying :=
  congrArg (fun t => t.2.2.2.2.2.2.2.2.2.2.2.2.2.1) h

theorem staticEq_supported_out {a b : Sim} (h : staticEq a b) :
    b.supported_out = a.supported_out :=
  congrArg (fun t => t.2.2.2.2.2.2.2.2.2.2.2.2.2.2.1) h

theorem staticEq_ref_gyro_data {a b : Sim} (h : staticEq a b) :
    b.ref_gyro_data = a.ref_gyro_data :=
  congrArg (fun t => t.2.2.2.2.2.2.2.2.2.2.2.2.2.2.2.2.2.2.2.2.2.1) h

theorem staticEq_ref_accel_data {a b : Sim} (h : staticEq a b) :
    b.ref_accel_data = a.ref_accel_data :=
  congrArg (fun t => t.2.2.2.2.2.2.2.2.2.2.2.2.2.2.2.2.2.2.2.2.2.2.1) h

/-- The entries of all thirteen per-trial dictionaries at trial index `j`. -/
def trialDictsAt (j : Nat) (st : Sim) : List (Option Arr) :=
  [dictGet st.gyro_data j, dictGet st.accel_data j, dictGet st.gps_data j,
   dictGet st.mag_data j, dictGet st.pos_data j, dictGet st.vel_data j,
   dictGet st.att_quat_data j, dictGet st.att_euler_data j, dictGet st.wb_data j,
   dictGet st.ab_data j, dictGet st.av_t_data j, dictGet st.av_gyro_data j,
   dictGet st.av_accel_data j]

/-- Invariant of one trial body at index `i`: the static fields are
untouched and every per-trial dictionary entry at any other index is
untouched. -/
def trialInv (i : Nat) (a b : Sim) : Prop :=
  staticEq a b ∧ ∀ j, j ≠ i → trialDictsAt j b = trialDictsAt j a

theorem trialInv_refl (i : Nat) (st : Sim) : trialInv i st st :=
  ⟨rfl, fun _ _ => rfl⟩

theorem trialInv_trans {i : Nat} {a b c : Sim} (h1 : trialInv i a b) (h2 : trialInv i b c) :
    trialInv i a c :=
  ⟨staticEq_trans h1.1 h2.1, fun j hj => (h2.2 j hj).trans (h1.2 j hj)⟩

theorem stepAccel_inv (o : Oracle) (i : Nat) (st : Sim) :
    trialInv i st (stepAccel o i st).1 := by
  unfold stepAccel
  rcases o.acc_gen i st.fs_data st.ref_accel_data st.imu.accel_err st.vib_def with e | a
  · exact trialInv_refl i st
  · refine ⟨rfl, fun j hj => ?_⟩
    simp [trialDictsAt, dictGet_dictSet, Ne.symm hj]

theorem stepGyro_inv (o : Oracle) (i : Nat) (st : Sim) :
    trialInv i st (stepGyro o i st).1 := by
  unfold stepGyro
  rcases o.gyro_gen i st.fs_data st.ref_gyro_data st.imu.gyro_err with e | g
  · exact trialInv_refl i st
  · refine ⟨rfl, fun j hj => ?_⟩
    simp [trialDictsAt, dictGet_dictSet, Ne.symm hj]

theorem stepGps_inv (o : Oracle) (i : Nat) (st : Sim) :
    trialInv i st (stepGps o i st).1 := by
  unfold stepGps
  by_cases hg : st.imu.gps
  · rw [if_pos hg]
    rcases o.gps_gen i st.ref_gps_data st.imu.gps_err st.ref_frame_data with e | v
    · exact trialInv_refl i st
    · refine ⟨rfl, fun j hj => ?_⟩
      simp [trialDictsAt, dictGet_dictSet, Ne.symm hj]
  · rw [if_neg hg]
    exact trialInv_refl i st

theorem stepMag_inv (o : Oracle) (i : Nat) (st : Sim) :
    trialInv i st (stepMag o i st).1 := by
  unfold stepMag
  by_cases hm : st.imu.magnetometer
  · rw [if_pos hm]
    rcases o.mag_gen i st.ref_mag_data st.imu.mag_err with e | v
    · exact trialInv_refl i st
    · refine ⟨rfl, fun j hj => ?_⟩
      simp [trialDictsAt, dictGet_dictSet, Ne.symm hj]
  · rw [if_neg hm]
    exact trialInv_refl i st

theorem setOutData_inv (st : Sim) (name : String) (i : Nat) (v : Arr) :
    trialInv i st (setOutData st name i v) := by
  unfold setOutData
  split <;>
    first
      | exact trialInv_refl i st
      | · refine ⟨rfl, fun j hj => ?_⟩
          simp [trialDictsAt, dictGet_dictSet, Ne.symm hj]

theorem storeOutputs_inv (i : Nat) :
    ∀ (ns : List String) (vs : List Arr) (st : Sim), trialInv i st (storeOutputs st i ns vs) := by
  intro ns
  induction ns with
  | nil =>
    intro vs st
    simp only [storeOutputs]
    exact trialInv_refl i st
  | cons n ns ih =>
    intro vs st
    cases vs with
    | nil =>
      simp only [storeOutputs]
      exact trialInv_refl i st
    | cons v vs =>
      simp only [storeOutputs]
      exact trialInv_trans (setOutData_inv st n i v) (ih vs _)

theorem stepAlgo_inv (o : Oracle) (i : Nat) (st : Sim) :
    trialInv i st (stepAlgo o i st).1 := by
  unfold stepAlgo
  cases h : st.algo with
  | none => exact trialInv_refl i st
  | some a =>
    rcases o.algo_run i (st.buildInputs i) with e | outs
    · exact trialInv_refl i st
    · show trialInv i st (if outs.length = st.algo_out_expr.length
        then (storeOutputs st i st.algo_out_expr outs, true) else (st, false)).1
      by_cases hl : outs.length = st.algo_out_expr.length
      · rw [if_pos hl]
        exact storeOutputs_inv i st.algo_out_expr outs st
      · rw [if_neg hl]
        exact trialInv_refl i st

theorem andThen_inv {i : Nat} (r : Sim × Bool) (f : Sim → Sim × Bool) (st : Sim)
    (h1 : trialInv i st r.1) (h2 : ∀ s, trialInv i s (f s).1) :
    trialInv i st (andThen r f).1 := by
  unfold andThen
  split
  · exact trialInv_trans h1 (h2 r.1)
  · exact h1

theorem runTrial_inv (o : Oracle) (i : Nat) (st : Sim) :
    trialInv i st (runTrial o i st).1 := by
  unfold runTrial
  apply andThen_inv _ _ _ (stepAccel_inv o i st)
  intro s1
  apply andThen_inv _ _ _ (stepGyro_inv o i s1)
  intro s2
  apply andThen_inv _ _ _ (stepGps_inv o i s2)
  intro s3
  apply andThen_inv _ _ _ (stepMag_inv o i s3)
  intro s4
  exact stepAlgo_inv o i s4

/-! ### What a successful trial writes -/

theorem andThen_ok {r : Sim × Bool} {f : Sim → Sim × Bool} {st' : Sim}
    (h : andThen r f = (st', true)) : r.2 = true ∧ f r.1 = (st', true) := by
  unfold andThen at h
  by_cases hb : r.2
  · rw [if_pos hb] at h
    exact ⟨hb, h⟩
  · rw [if_neg hb] at h
    have : r.2 = true := by rw [h]
    exact absurd this hb

theorem stepAccel_ok (o : Oracle) (i : Nat) (st : Sim)
    (h : (stepAccel o i st).2 = true) :
    ∃ a, o.acc_gen i st.fs_data st.ref_accel_data st.imu.accel_err st.vib_def = Except.ok a ∧
      (stepAccel o i st).1 = { st with accel_data := dictSet st.accel_data i a } := by
  rcases hacc : o.acc_gen i st.fs_data st.ref_accel_data st.imu.accel_err st.vib_def with e | a
  · exfalso
    unfold stepAccel at h
    rw [hacc] at h
    cases h
  · refine ⟨a, rfl, ?_⟩
    unfold stepAccel
    rw [hacc]

theorem stepGyro_ok (o : Oracle) (i : Nat) (st : Sim)
    (h : (stepGyro o i st).2 = true) :
    ∃ g, o.gyro_gen i st.fs_data st.ref_gyro_data st.imu.gyro_err = Except.ok g ∧
      (stepGyro o i st).1 = { st with gyro_data := dictSet st.gyro_data i g } := by
  rcases hg : o.gyro_gen i st.fs_data st.ref_gyro_data st.imu.gyro_err with e | g
  · exfalso
    unfold stepGyro at h
    rw [hg] at h
    cases h
  · refine ⟨g, rfl, ?_⟩
    unfold stepGyro
    rw [hg]

theorem stepGps_fields (o : Oracle) (i : Nat) (st : Sim) :
    (stepGps o i st).1.accel_data = st.accel_data ∧
    (stepGps o i st).1.gyro_data = st.gyro_data := by
  unfold stepGps
  by_cases hg : st.imu.gps
  · rw [if_pos hg]
    rcases o.gps_gen i st.ref_gps_data st.imu.gps_err st.ref_frame_data with e | v <;>
      exact ⟨rfl, rfl⟩
  · rw [if_neg hg]
    exact ⟨rfl, rfl⟩

theorem stepMag_fields (o : Oracle) (i : Nat) (st : Sim) :
    (stepMag o i st).1.accel_data = st.accel_data ∧
    (stepMag o i st).1.gyro_data = st.gyro_data := by
  unfold stepMag
  by_cases hm : st.imu.magnetometer
  · rw [if_pos hm]
    rcases o.mag_gen i st.ref_mag_data st.imu.mag_err with e | v <;> exact ⟨rfl, rfl⟩
  · rw [if_neg hm]
    exact ⟨rfl, rfl⟩

theorem setOutData_fields (st : Sim) (name : String) (i : Nat) (v : Arr) :
    (setOutData st name i v).accel_data = st.accel_data ∧
    (setOutData st name i v).gyro_data = st.gyro_data := by
  unfold setOutData
  split <;> exact ⟨rfl, rfl⟩

theorem storeOutputs_fields (i : Nat) :
    ∀ (ns : List String) (vs : List Arr) (st : Sim),
      (storeOutputs st i ns vs).accel_data = st.accel_data ∧
      (storeOutputs st i ns vs).gyro_data = st.gyro_data := by
  intro ns
  induction ns with
  | nil =>
    intro vs st
    simp [storeOutputs]
  | cons n ns ih =>
    intro vs st
    cases vs with
    | nil =>
      simp [storeOutputs]
    | cons v vs =>
      simp only [storeOutputs]
      rcases ih vs (setOutData st n i v) with ⟨h1, h2⟩
      rcases setOutData_fields st n i v with ⟨h3, h4⟩
      exact ⟨h1.trans h3, h2.trans h4⟩

theorem stepAlgo_fields (o : Oracle) (i : Nat) (st : Sim) :
    (stepAlgo o i st).1.accel_data = st.accel_data ∧
    (stepAlgo o i st).1.gyro_data = st.gyro_data := by
  unfold stepAlgo
  cases h : st.algo with
  | none => exact ⟨rfl, rfl⟩
  | some a =>
    rcases o.algo_run i (st.buildInputs i) with e | outs
    · exact ⟨rfl, rfl⟩
    · show ((if outs.length = st.algo_out_expr.length
          then (storeOutputs st i st.algo_out_expr outs, true) else (st, false)).1.accel_data
            = st.accel_data) ∧
        ((if outs.length = st.algo_out_expr.length
          then (storeOutputs st i st.algo_out_expr outs, true) else (st, false)).1.gyro_data
            = st.gyro_data)
      by_cases hl : outs.length = st.algo_out_expr.length
      · rw [if_pos hl]
        exact storeOutputs_fields i st.algo_out_expr outs st
      · rw [if_neg hl]
        exact ⟨rfl, rfl⟩

theorem runTrial_ok_writes (o : Oracle) (i : Nat) (st st' : Sim)
    (h : runTrial o i st = (st', true)) :
    (∃ a, o.acc_gen i st.fs_data st.ref_accel_data st.imu.accel_err st.vib_def = Except.ok a ∧
      dictGet st'.accel_data i = some a) ∧
    (∃ g, o.gyro_gen i st.fs_data st.ref_gyro_data st.imu.gyro_err = Except.ok g ∧
      dictGet st'.gyro_data i = some g) := by
  unfold runTrial at h
  obtain ⟨hb1, h1⟩ := andThen_ok h
  obtain ⟨a, hacc, hst1⟩ := stepAccel_ok o i st hb1
  rw [hst1] at h1
  obtain ⟨hb2, h2⟩ := andThen_ok h1
  set st1 : Sim := { st with accel_data := dictSet st.accel_data i a } with hst1d
  obtain ⟨g, hgyro, hst2⟩ := stepGyro_ok o i st1 hb2
  rw [hst2] at h2
  set st2 : Sim := { st1 with gyro_data := dictSet st1.gyro_data i g } with hst2d
  obtain ⟨hb3, h3⟩ := andThen_ok h2
  obtain ⟨hb4, h4⟩ := andThen_ok h3
  have hst' : st' = (stepAlgo o i (stepMag o i (stepGps o i st2).1).1).1 := by
    rw [h4]
  have haccel : st'.accel_data = st2.accel_data := by
    rw [hst', (stepAlgo_fields o i _).1, (stepMag_fields o i _).1, (stepGps_fields o i st2).1]
  have hgyrod : st'.gyro_data = st2.gyro_data := by
    rw [hst', (stepAlgo_fields o i _).2, (stepMag_fields o i _).2, (stepGps_fields o i st2).2]
  constructor
  · refine ⟨a, hacc, ?_⟩
    rw [haccel]
    have : st2.accel_data = dictSet st.accel_data i a := rfl
    rw [this, dictGet_dictSet]
    simp
  · refine ⟨g, ?_, ?_⟩
    · exact hgyro
    · rw [hgyrod]
      have : st2.gyro_data = dictSet st1.gyro_data i g := rfl
      rw [this, dictGet_dictSet]
      simp

/-! ### Loop lemmas -/

theorem runTrialsFrom_static (o : Oracle) :
    ∀ (fuel i : Nat) (st : Sim), staticEq st (runTrialsFrom o i fuel st).1 := by
  intro fuel
  induction fuel with
  | zero => intro i st; rfl
  | succ fuel ih =>
    intro i st
    unfold runTrialsFrom
    cases hR : runTrial o i st with
    | mk st1 b =>
      have h1 : staticEq st st1 := by
        have := (runTrial_inv o i st).1
        rwa [hR] at this
      cases b
      · exact h1
      · exact staticEq_trans h1 (ih (i + 1) st1)

theorem runTrialsFrom_off (o : Oracle) :
    ∀ (fuel i : Nat) (st : Sim) (j : Nat), j < i ∨ i + fuel ≤ j →
      trialDictsAt j (runTrialsFrom o i fuel st).1 = trialDictsAt j st := by
  intro fuel
  induction fuel with
  | zero => intro i st j hj; rfl
  | succ fuel ih =>
    intro i st j hj
    have hji : j ≠ i := by omega
    unfold runTrialsFrom
    cases hR : runTrial o i st with
    | mk st1 b =>
      have hoff : trialDictsAt j st1 = trialDictsAt j st := by
        have := (runTrial_inv o i st).2 j hji
        rwa [hR] at this
      cases b
      · exact hoff
      · rw [ih (i + 1) st1 j (by omega)]
        exact hoff

theorem runTrialsFrom_ok_writes (o : Oracle) :
    ∀ (fuel i : Nat) (st st' : Sim), runTrialsFrom o i fuel st = (st', none) →
      ∀ j, i ≤ j → j < i + fuel →
        (∃ a, o.acc_gen j st.fs_data st.ref_accel_data st.imu.accel_err st.vib_def =
            Except.ok a ∧ dictGet st'.accel_data j = some a) ∧
        (∃ g, o.gyro_gen j st.fs_data st.ref_gyro_data st.imu.gyro_err = Except.ok g ∧
          dictGet st'.gyro_data j = some g) := by
  intro fuel
  induction fuel with
  | zero => intro i st st' h j h1 h2; omega
  | succ fuel ih =>
    intro i st st' h j h1 h2
    unfold runTrialsFrom at h
    cases hR : runTrial o i st with
    | mk st1 b =>
      rw [hR] at h
      cases b
      · exact absurd (congrArg Prod.snd h) (by simp)
      · by_cases hji : j = i
        · subst hji
          obtain ⟨⟨a, haj, ha⟩, ⟨g, hgj, hg⟩⟩ := runTrial_ok_writes o j st st1 hR
          have hoffList : trialDictsAt j st' = trialDictsAt j st1 := by
            have hred : (runTrialsFrom o (j + 1) fuel st1).1 = st' := congrArg Prod.fst h
            have := runTrialsFrom_off o fuel (j + 1) st1 j (Or.inl (by omega))
            rwa [hred] at this
          simp only [trialDictsAt, List.cons.injEq] at hoffList
          refine ⟨⟨a, haj, ?_⟩, ⟨g, hgj, ?_⟩⟩
          · rw [hoffList.2.1]
            exact ha
          · rw [hoffList.1]
            exact hg
        · have hstat : staticEq st st1 := by
            have := (runTrial_inv o i st).1
            rwa [hR] at this
          have hrec := ih (i + 1) st1 st' h j (by omega) (by omega)
          rcases hrec with ⟨⟨a, ha1, ha2⟩, ⟨g, hg1, hg2⟩⟩
          rw [staticEq_fs_data hstat, staticEq_ref_accel_data hstat, staticEq_imu hstat,
            staticEq_vib_def hstat] at ha1
          rw [staticEq_fs_data hstat, staticEq_ref_gyro_data hstat, staticEq_imu hstat] at hg1
          exact ⟨⟨a, ha1, ha2⟩, ⟨g, hg1, hg2⟩⟩

theorem runTrialsFrom_fail (o : Oracle) :
    ∀ (fuel i : Nat) (st st' : Sim) (f : Nat), runTrialsFrom o i fuel st = (st', some f) →
      i ≤ f ∧ f < i + fuel ∧
      ∀ j, i ≤ j → j < f →
        (∃ a, o.acc_gen j st.fs_data st.ref_accel_data st.imu.accel_err st.vib_def =
            Except.ok a ∧ dictGet st'.accel_data j = some a) ∧
        (∃ g, o.gyro_gen j st.fs_data st.ref_gyro_data st.imu.gyro_err = Except.ok g ∧
          dictGet st'.gyro_data j = some g) := by
  intro fuel
  induction fuel with
  | zero =>
    intro i st st' f h
    exact absurd (congrArg Prod.snd h) (by simp [runTrialsFrom])
  | succ fuel ih =>
    intro i st st' f h
    unfold runTrialsFrom at h
    cases hR : runTrial o i st with
    | mk st1 b =>
      rw [hR] at h
      cases b
      · have hst : st1 = st' := congrArg Prod.fst h
        have hf : i = f := Option.some.inj (congrArg Prod.snd h)
        subst hf
        refine ⟨le_refl i, by omega, ?_⟩
        intro j hj1 hj2
        omega
      · have hstat : staticEq st st1 := by
          have := (runTrial_inv o i st).1
          rwa [hR] at this
        obtain ⟨hb1, hb2, hwrites⟩ := ih (i + 1) st1 st' f h
        refine ⟨by omega, by omega, ?_⟩
        intro j hj1 hj2
        by_cases hji : j = i
        · subst hji
          obtain ⟨⟨a, haj, ha⟩, ⟨g, hgj, hg⟩⟩ := runTrial_ok_writes o j st st1 hR
          have hoffList : trialDictsAt j st' = trialDictsAt j st1 := by
            have hred : (runTrialsFrom o (j + 1) fuel st1).1 = st' := congrArg Prod.fst h
            have := runTrialsFrom_off o fuel (j + 1) st1 j (Or.inl (by omega))
            rwa [hred] at this
          simp only [trialDictsAt, List.cons.injEq] at hoffList
          refine ⟨⟨a, haj, ?_⟩, ⟨g, hgj, ?_⟩⟩
          · rw [hoffList.2.1]
            exact ha
          · rw [hoffList.1]
            exact hg
        · rcases hwrites j (by omega) hj2 with ⟨⟨a, ha1, ha2⟩, ⟨g, hg1, hg2⟩⟩
          rw [staticEq_fs_data hstat, staticEq_ref_accel_data hstat, staticEq_imu hstat,
            staticEq_vib_def hstat] at ha1
          rw [staticEq_fs_data hstat, staticEq_ref_gyro_data hstat, staticEq_imu hstat] at hg1
          exact ⟨⟨a, ha1, ha2⟩, ⟨g, hg1, hg2⟩⟩

theorem populateRef_spec (o : Oracle) (st : Sim) :
    (populateRef o st).imu = st.imu ∧
    (populateRef o st).sim_complete = st.sim_complete ∧
    (populateRef o st).sim_count = st.sim_count ∧
    (populateRef o st).fs_data = st.fs_data ∧
    (populateRef o st).ref_frame_data = st.ref_frame_data ∧
    (populateRef o st).vib_def = st.vib_def ∧
    (populateRef o st).algo = st.algo ∧
    (populateRef o st).algo_in_expr = st.algo_in_expr ∧
    (populateRef o st).algo_out_expr = st.algo_out_expr ∧
    (populateRef o st).supported_in_constant = st.supported_in_constant ∧
    (populateRef o st).supported_in_varying = st.supported_in_varying ∧
    (populateRef o st).supported_out = st.supported_out ∧
    (populateRef o st).res = st.res ∧
    (populateRef o st).ref_accel_data = some o.pathgen.ref_accel ∧
    (populateRef o st).ref_gyro_data = some o.pathgen.ref_gyro ∧
    (∀ j, trialDictsAt j (populateRef o st) = trialDictsAt j st) := by
  unfold populateRef
  by_cases hg : st.imu.gps <;> by_cases hm : st.imu.magnetometer <;>
    simp [hg, hm, trialDictsAt]

/-! ### Facts about the count coercion and the run wrapper -/

theorem pyInt_lt_one {q : ℚ} (h : q < 1) : pyInt q < 1 := by
  unfold pyInt
  split
  · rename_i hneg
    have h0 : (⌈q⌉ : ℤ) ≤ 0 := Int.ceil_le.mpr (by exact_mod_cast hneg.le)
    omega
  · have h0 : (⌊q⌋ : ℤ) < 1 := by
      rw [Int.floor_lt]
      exact_mod_cast h
    exact h0

theorem clampCount_of_lt_one {q : ℚ} (h : q < 1) : clampCount q = 1 := by
  simp only [clampCount]
  rw [if_pos (pyInt_lt_one h)]

theorem clampCount_one : clampCount 1 = 1 := by
  norm_num [clampCount, pyInt]

theorem clampCount_ge_one (q : ℚ) : 1 ≤ clampCount q := by
  simp only [clampCount]
  split
  · exact le_refl 1
  · omega

theorem run_sim_count (o : Oracle) (st : Sim) (q : ℚ) :
    ((Sim.run o st q).1).sim_count = clampCount q := by
  simp only [Sim.run]
  cases hL : runTrialsFrom o 0 (clampCount q).toNat
      (populateRef o { st with sim_count := clampCount q }) with
  | mk st2 r =>
    have hstat : staticEq (populateRef o { st with sim_count := clampCount q }) st2 := by
      have h := runTrialsFrom_static o (clampCount q).toNat 0
        (populateRef o { st with sim_count := clampCount q })
      rw [hL] at h
      exact h
    have hc : st2.sim_count = clampCount q := by
      rw [staticEq_sim_count hstat,
        (populateRef_spec o { st with sim_count := clampCount q }).2.2.1]
    cases r <;> exact hc

theorem run_flag_of_none (o : Oracle) (st : Sim) (q : ℚ) (st' : Sim)
    (h : Sim.run o st q = (st', none)) : st'.sim_complete = true := by
  simp only [Sim.run] at h
  cases hL : runTrialsFrom o 0 (clampCount q).toNat
      (populateRef o { st with sim_count := clampCount q }) with
  | mk st2 r =>
    rw [hL] at h
    cases r
    · have hpair : ({ st2 with sim_complete := true }, (none : Option Nat)) = (st', none) := h
      have h2 : ({ st2 with sim_complete := true } : Sim) = st' := congrArg Prod.fst hpair
      rw [← h2]
    · exact absurd (congrArg Prod.snd h) (by simp)

theorem run_fail_spec (o : Oracle) (st : Sim) (q : ℚ) (st' : Sim) (f : Nat)
    (h : Sim.run o st q = (st', some f)) :
    st'.sim_complete = st.sim_complete ∧
    (f : Int) < clampCount q ∧
    ∀ j, j < f →
      (∃ a, dictGet st'.accel_data j = some a) ∧
      (∃ g, dictGet st'.gyro_data j = some g) := by
  simp only [Sim.run] at h
  cases hL : runTrialsFrom o 0 (clampCount q).toNat
      (populateRef o { st with sim_count := clampCount q }) with
  | mk st2 r =>
    rw [hL] at h
    cases r with
    | none => exact absurd (congrArg Prod.snd h) (by simp)
    | some f0 =>
      have hpair : (st2, (some f0 : Option Nat)) = (st', some f) := h
      have hst : st2 = st' := congrArg Prod.fst hpair
      have hf : f0 = f := Option.some.inj (congrArg Prod.snd hpair)
      subst hst
      subst hf
      obtain ⟨hb0, hb1, hwrites⟩ := runTrialsFrom_fail o (clampCount q).toNat 0
        (populateRef o { st with sim_count := clampCount q }) st2 f0 hL
      refine ⟨?_, ?_, ?_⟩
      · have hstat : staticEq (populateRef o { st with sim_count := clampCount q }) st2 := by
          have hs := runTrialsFrom_static o (clampCount q).toNat 0
            (populateRef o { st with sim_count := clampCount q })
          rw [hL] at hs
          exact hs
        rw [staticEq_sim_complete hstat,
          (populateRef_spec o { st with sim_count := clampCount q }).2.1]
      · have : f0 < (clampCount q).toNat := by omega
        exact_mod_cast Int.lt_toNat.mp this
      · intro j hj
        obtain ⟨⟨a, _, ha⟩, ⟨g, _, hg⟩⟩ := hwrites j (Nat.zero_le j) hj
        exact ⟨⟨a, ha⟩, ⟨g, hg⟩⟩

/-! ### Concrete oracles for witnesses -/

/-- An oracle whose synthesis calls all succeed, returning distinct tokens. -/
def okOracle : Oracle :=
  { pathgen := { nav_time := 1, ref_pos := 2, ref_vel := 3, ref_att := 4, ref_accel := 5,
                 ref_gyro := 6, gps_time := 7, ref_gps := 8, ref_mag := 9 }
    acc_gen := fun i _ _ _ _ => Except.ok (100 + i)
    gyro_gen := fun i _ _ _ => Except.ok (200 + i)
    gps_gen := fun i _ _ _ => Except.ok (300 + i)
    mag_gen := fun i _ _ => Except.ok (400 + i)
    algo_run := fun i _ => Except.ok [500 + i] }

/-- An oracle whose accelerometer synthesis raises on every call. -/
def failOracle : Oracle :=
  { okOracle with acc_gen := fun _ _ _ _ _ => Except.error () }

/-- The engine state `Sim.init` builds for the no-GPS, no-magnetometer
configuration with a valid table and no algorithm. -/
def testSim : Sim := baseSim wfs wImu wTable high_mobility

theorem testSim_from_init :
    Sim.init wfs wImu wTable (PyArg.pystr "flight") (PyArg.pystr "2g_random") none =
      .ok testSim := rfl

/-- The state after a successful single-trial run on `testSim`. -/
def simAfterOk : Sim := (Sim.run okOracle testSim 1).1

/-! ### C4 -/

/-- C4: `run(n)` coerces `num_times` with `int()` (truncation toward zero)
and clamps any result below 1 up to 1, so for every rational argument
`q < 1` (covering all Python ints and floats below 1) the call computes
exactly what `run(1)` computes; there is no rejection path and the stored
trial count is always at least 1. -/
theorem run_clamps_trial_count (o : Oracle) (st : Sim) :
    (∀ q : ℚ, q < 1 → Sim.run o st q = Sim.run o st 1) ∧
    (∀ q : ℚ, 1 ≤ ((Sim.run o st q).1).sim_count) := by
  constructor
  · intro q hq
    simp only [Sim.run]
    rw [clampCount_of_lt_one hq, clampCount_one]
  · intro q
    rw [run_sim_count]
    exact clampCount_ge_one q

/-- Witness for C4 at `num_times = 1/2` (a float below 1). -/
theorem run_clamps_trial_count_witness :
    ((1 : ℚ) / 2 < 1 ∧
      Sim.run okOracle testSim (1 / 2) = Sim.run okOracle testSim 1) ∧
    1 ≤ ((Sim.run okOracle testSim (1 / 2)).1).sim_count :=
  ⟨⟨by norm_num, (run_clamps_trial_count okOracle testSim).1 (1 / 2) (by norm_num)⟩,
   (run_clamps_trial_count okOracle testSim).2 (1 / 2)⟩

/-! ### C5 -/

/-- C5 counterexample: `run` never resets `sim_complete`, so on an engine
whose previous run completed, a second run whose very first trial raises
(accelerometer synthesis fails) escapes with the exception while the
completion flag is still set from the earlier run — the flag is set even
though not every trial of the last call finished without error. -/
theorem run_complete_flag_stale :
    simAfterOk.sim_complete = true ∧
    (Sim.run failOracle simAfterOk 1).2 = some 0 ∧
    ((Sim.run failOracle simAfterOk 1).1).sim_complete = true := by
  refine ⟨rfl, rfl, rfl⟩

/-- C5 (amended): on an engine whose completion flag is not already set —
in particular any freshly constructed engine — `run` sets the flag only
when every trial's sensor synthesis and algorithm invocation finished
without raising; when trial `f` raises, the flag stays unset and the
accelerometer and gyroscope containers of every trial before `f` keep
their populated data.  (The amendment restricts the claim to engines
without a previously completed run: the flag set by an earlier successful
run is never cleared, see the counterexample.) -/
theorem run_complete_flag_fresh (o : Oracle) (st : Sim) (q : ℚ)
    (h0 : st.sim_complete = false) :
    (∀ st', Sim.run o st q = (st', none) → st'.sim_complete = true) ∧
    (∀ st' f, Sim.run o st q = (st', some f) →
      st'.sim_complete = false ∧
      ∀ j, j < f →
        (∃ a, dictGet st'.accel_data j = some a) ∧
        (∃ g, dictGet st'.gyro_data j = some g)) := by
  constructor
  · intro st' h
    exact run_flag_of_none o st q st' h
  · intro st' f h
    obtain ⟨hflag, _, hwrites⟩ := run_fail_spec o st q st' f h
    exact ⟨hflag.trans h0, hwrites⟩

/-- Witness for C5 (amended): a failing first run on a fresh engine leaves
the flag unset. -/
theorem run_complete_flag_fresh_witness :
    testSim.sim_complete = false ∧
    ((Sim.run failOracle testSim 1).1).sim_complete = false :=
  ⟨rfl,
   ((run_complete_flag_fresh failOracle testSim 1 rfl).2
     (Sim.run failOracle testSim 1).1 0 rfl).1⟩

/-! ### C9 -/

/-- Two oracles that are identical except possibly in what the
accelerometer synthesis does when handed a non-`None` vibration model. -/
def Oracle.agreesExceptVib (o o' : Oracle) : Prop :=
  o.pathgen = o'.pathgen ∧ o.gyro_gen = o'.gyro_gen ∧ o.gps_gen = o'.gps_gen ∧
  o.mag_gen = o'.mag_gen ∧ o.algo_run = o'.algo_run ∧
  ∀ i f r e, o.acc_gen i f r e none = o'.acc_gen i f r e none

theorem stepAccel_congr {o o' : Oracle} (h : Oracle.agreesExceptVib o o') (i : Nat)
    (st : Sim) (hv : st.vib_def = none) : stepAccel o i st = stepAccel o' i st := by
  unfold stepAccel
  rw [hv, h.2.2.2.2.2 i st.fs_data st.ref_accel_data st.imu.accel_err]

theorem stepGyro_congr {o o' : Oracle} (h : o.gyro_gen = o'.gyro_gen) (i : Nat)
    (st : Sim) : stepGyro o i st = stepGyro o' i st := by
  unfold stepGyro
  rw [h]

theorem stepGps_congr {o o' : Oracle} (h : o.gps_gen = o'.gps_gen) (i : Nat)
    (st : Sim) : stepGps o i st = stepGps o' i st := by
  unfold stepGps
  rw [h]

theorem stepMag_congr {o o' : Oracle} (h : o.mag_gen = o'.mag_gen) (i : Nat)
    (st : Sim) : stepMag o i st = stepMag o' i st := by
  unfold stepMag
  rw [h]

theorem stepAlgo_congr {o o' : Oracle} (h : o.algo_run = o'.algo_run) (i : Nat)
    (st : Sim) : stepAlgo o i st = stepAlgo o' i st := by
  unfold stepAlgo
  rw [h]

theorem andThen_congr {r : Sim × Bool} {f g : Sim → Sim × Bool}
    (hfg : f r.1 = g r.1) : andThen r f = andThen r g := by
  unfold andThen
  split
  · exact hfg
  · rfl

theorem runTrial_congr {o o' : Oracle} (h : Oracle.agreesExceptVib o o') (i : Nat)
    (st : Sim) (hv : st.vib_def = none) : runTrial o i st = runTrial o' i st := by
  unfold runTrial
  rw [stepAccel_congr h i st hv]
  apply andThen_congr
  rw [stepGyro_congr h.2.1 i]
  apply andThen_congr
  rw [stepGps_congr h.2.2.1 i]
  apply andThen_congr
  rw [stepMag_congr h.2.2.2.1 i]
  apply andThen_congr
  rw [stepAlgo_congr h.2.2.2.2.1 i]

theorem runTrialsFrom_congr {o o' : Oracle} (h : Oracle.agreesExceptVib o o') :
    ∀ (fuel i : Nat) (st : Sim), st.vib_def = none →
      runTrialsFrom o i fuel st = runTrialsFrom o' i fuel st := by
  intro fuel
  induction fuel with
  | zero => intro i st _; rfl
  | succ fuel ih =>
    intro i st hv
    unfold runTrialsFrom
    rw [runTrial_congr h i st hv]
    cases hR : runTrial o' i st with
    | mk st1 b =>
      have hv1 : st1.vib_def = none := by
        have hs := (runTrial_inv o' i st).1
        rw [hR] at hs
        rw [staticEq_vib_def hs]
        exact hv
      cases b
      · rfl
      · exact ih (i + 1) st1 hv1

theorem populateRef_congr {o o' : Oracle} (h : o.pathgen = o'.pathgen) (st : Sim) :
    populateRef o st = populateRef o' st := by
  unfold populateRef
  rw [h]

theorem run_vib_def (o : Oracle) (st : Sim) (q : ℚ) :
    ((Sim.run o st q).1).vib_def = st.vib_def := by
  simp only [Sim.run]
  cases hL : runTrialsFrom o 0 (clampCount q).toNat
      (populateRef o { st with sim_count := clampCount q }) with
  | mk st2 r =>
    have hstat : staticEq (populateRef o { st with sim_count := clampCount q }) st2 := by
      have hs := runTrialsFrom_static o (clampCount q).toNat 0
        (populateRef o { st with sim_count := clampCount q })
      rw [hL] at hs
      exact hs
    have hv : st2.vib_def = st.vib_def := by
      rw [staticEq_vib_def hstat,
        (populateRef_spec o { st with sim_count := clampCount q }).2.2.2.2.2.1]
    cases r <;> exact hv

/-- C9: every `env` argument that construction accepts (any string, any
array) leaves the vibration-model descriptor `vib_def = None`; `run`
preserves that, and every accelerometer synthesis call inside `run` is
made with vibration model `None` — two oracles that differ only in what
`acc_gen` does on a non-`None` vibration argument make `run` compute
identical results, so the `env` content never influences a trial. -/
theorem vib_def_always_none (fs : ℚ × ℚ × ℚ) (imu : ImuCfg) (path : Table)
    (mode env : PyArg) (algorithm : Option Algorithm) (st : Sim)
    (h : Sim.init fs imu path mode env algorithm = .ok st) :
    st.vib_def = none ∧
    (∀ (o : Oracle) (q : ℚ), ((Sim.run o st q).1).vib_def = none) ∧
    (∀ (o o' : Oracle) (q : ℚ), Oracle.agreesExceptVib o o' →
      Sim.run o st q = Sim.run o' st q) := by
  have hv : st.vib_def = none := (Sim.init_ok_spec _ _ _ _ _ _ _ h).2.2.1
  refine ⟨hv, ?_, ?_⟩
  · intro o q
    rw [run_vib_def]
    exact hv
  · intro o o' q hagree
    simp only [Sim.run]
    rw [populateRef_congr hagree.1]
    rw [runTrialsFrom_congr hagree (clampCount q).toNat 0
      (populateRef o' { st with sim_count := clampCount q })
      (by rw [(populateRef_spec o' { st with sim_count := clampCount q }).2.2.2.2.2.1]
          exact hv)]

/-- Witness for C9: the array-env construction yields `vib_def = None`. -/
theorem vib_def_always_none_witness :
    Sim.init wfs wImu wTable (PyArg.pystr "flight") (PyArg.pyarr [1, 2]) none =
      .ok testSim ∧ testSim.vib_def = none :=
  ⟨rfl,
   (vib_def_always_none wfs wImu wTable (PyArg.pystr "flight") (PyArg.pyarr [1, 2])
     none testSim rfl).1⟩

/-! ### Output containers -/

/-- The per-trial dictionary backing an output capability name. -/
def Sim.outDict (st : Sim) (name : String) : List (Nat × Arr) :=
  match name with
  | "pos" => st.pos_data
  | "vel" => st.vel_data
  | "att_quat" => st.att_quat_data
  | "att_euler" => st.att_euler_data
  | "wb" => st.wb_data
  | "ab" => st.ab_data
  | "av_t" => st.av_t_data
  | "av_gyro" => st.av_gyro_data
  | "av_accel" => st.av_accel_data
  | _ => []

theorem supported_out_names {n : String}
    (h : (dictGet supported_out_def (RegKey.str n)).isSome) :
    n = "pos" ∨ n = "vel" ∨ n = "att_quat" ∨ n = "att_euler" ∨ n = "wb" ∨ n = "ab" ∨
    n = "av_t" ∨ n = "av_gyro" ∨ n = "av_accel" := by
  by_contra hc
  push_neg at hc
  obtain ⟨h1, h2, h3, h4, h5, h6, h7, h8, h9⟩ := hc
  have e : dictGet supported_out_def (RegKey.str n) = none := by
    simp [supported_out_def, dictGet, RegKey.str.injEq, Ne.symm h1, Ne.symm h2, Ne.symm h3,
      Ne.symm h4, Ne.symm h5, Ne.symm h6, Ne.symm h7, Ne.symm h8, Ne.symm h9]
  rw [e] at h
  cases h

theorem outDict_setOutData (st : Sim) (n n' : String) (i : Nat) (v : Arr) :
    Sim.outDict (setOutData st n i v) n' = Sim.outDict st n' ∨
    Sim.outDict (setOutData st n i v) n' = dictSet (Sim.outDict st n') i v := by
  unfold setOutData Sim.outDict
  split <;> (try split) <;> simp_all

theorem setOutData_get_same (st : Sim) (n : String) (i : Nat) (v : Arr)
    (hn : (dictGet supported_out_def (RegKey.str n)).isSome) :
    dictGet (Sim.outDict (setOutData st n i v) n) i = some v := by
  rcases supported_out_names hn with hh|hh|hh|hh|hh|hh|hh|hh|hh <;> subst hh <;>
    simp [setOutData, Sim.outDict, dictGet_dictSet]

theorem setOutData_isSome_mono {st : Sim} {n n' : String} {i i' : Nat} {v : Arr}
    (h : (dictGet (Sim.outDict st n') i').isSome) :
    (dictGet (Sim.outDict (setOutData st n i v) n') i').isSome := by
  rcases outDict_setOutData st n n' i v with he | he <;> rw [he]
  · exact h
  · rw [dictGet_dictSet]
    split
    · rfl
    · exact h

theorem storeOutputs_isSome_mono (i : Nat) :
    ∀ (ns : List String) (vs : List Arr) (st : Sim) (n' : String) (i' : Nat),
      (dictGet (Sim.outDict st n') i').isSome →
      (dictGet (Sim.outDict (storeOutputs st i ns vs) n') i').isSome := by
  intro ns
  induction ns with
  | nil =>
    intro vs st n' i' h
    simp only [storeOutputs]
    exact h
  | cons n0 ns ih =>
    intro vs st n' i' h
    cases vs with
    | nil =>
      simp only [storeOutputs]
      exact h
    | cons v vs =>
      simp only [storeOutputs]
      exact ih vs (setOutData st n0 i v) n' i' (setOutData_isSome_mono h)

theorem storeOutputs_writes (i : Nat) :
    ∀ (ns : List String) (vs : List Arr) (st : Sim), vs.length = ns.length →
      (∀ n ∈ ns, (dictGet supported_out_def (RegKey.str n)).isSome) →
      ∀ n ∈ ns, (dictGet (Sim.outDict (storeOutputs st i ns vs) n) i).isSome := by
  intro ns
  induction ns with
  | nil =>
    intro vs st _ _ n hn
    exact absurd hn (List.not_mem_nil n)
  | cons n0 ns ih =>
    intro vs st hlen hvalid n hn
    cases vs with
    | nil => simp at hlen
    | cons v vs =>
      simp only [storeOutputs]
      rcases List.mem_cons.mp hn with hh | hh
      · subst hh
        apply storeOutputs_isSome_mono
        rw [setOutData_get_same st n i v (hvalid n hn)]
        rfl
      · exact ih vs (setOutData st n0 i v) (by simpa using hlen)
          (fun x hx => hvalid x (List.mem_cons_of_mem _ hx)) n hh

theorem stepAlgo_eq_some (o : Oracle) (i : Nat) (st : Sim) (a : Algorithm)
    (outs : List Arr) (hA : st.algo = some a)
    (hr : o.algo_run i (st.buildInputs i) = Except.ok outs) :
    stepAlgo o i st = if outs.length = st.algo_out_expr.length
      then (storeOutputs st i st.algo_out_expr outs, true) else (st, false) := by
  unfold stepAlgo
  rw [hA, hr]

theorem stepAlgo_eq_err (o : Oracle) (i : Nat) (st : Sim) (a : Algorithm) (e : Unit)
    (hA : st.algo = some a) (hr : o.algo_run i (st.buildInputs i) = Except.error e) :
    stepAlgo o i st = (st, false) := by
  unfold stepAlgo
  rw [hA, hr]

theorem stepAlgo_ok_outputs (o : Oracle) (i : Nat) (st st1 : Sim)
    (h : stepAlgo o i st = (st1, true)) (ha : st.algo.isSome)
    (hvalid : ∀ n ∈ st.algo_out_expr, (dictGet supported_out_def (RegKey.str n)).isSome) :
    ∀ n ∈ st.algo_out_expr, (dictGet (Sim.outDict st1 n) i).isSome := by
  cases hA : st.algo with
  | none =>
    rw [hA] at ha
    cases ha
  | some a =>
    rcases hr : o.algo_run i (st.buildInputs i) with e | outs
    · rw [stepAlgo_eq_err o i st a e hA hr] at h
      exact absurd (congrArg Prod.snd h) (by simp)
    · rw [stepAlgo_eq_some o i st a outs hA hr] at h
      by_cases hl : outs.length = st.algo_out_expr.length
      · rw [if_pos hl] at h
        have hst1 : storeOutputs st i st.algo_out_expr outs = st1 := congrArg Prod.fst h
        intro n hn
        rw [← hst1]
        exact storeOutputs_writes i st.algo_out_expr outs st hl hvalid n hn
      · rw [if_neg hl] at h
        exact absurd (congrArg Prod.snd h) (by simp)

theorem outDict_eq_of_trialDictsAt {a b : Sim} {j : Nat}
    (h : trialDictsAt j a = trialDictsAt j b) {n : String}
    (hn : (dictGet supported_out_def (RegKey.str n)).isSome) :
    dictGet (Sim.outDict a n) j = dictGet (Sim.outDict b n) j := by
  simp only [trialDictsAt, List.cons.injEq, and_true] at h
  obtain ⟨e1, e2, e3, e4, e5, e6, e7, e8, e9, e10, e11, e12, e13⟩ := h
  rcases supported_out_names hn with hh|hh|hh|hh|hh|hh|hh|hh|hh <;> subst hh
  · exact e5
  · exact e6
  · exact e7
  · exact e8
  · exact e9
  · exact e10
  · exact e11
  · exact e12
  · exact e13

theorem runTrial_ok_outputs (o : Oracle) (i : Nat) (st st' : Sim)
    (h : runTrial o i st = (st', true)) (ha : st.algo.isSome)
    (hvalid : ∀ n ∈ st.algo_out_expr, (dictGet supported_out_def (RegKey.str n)).isSome) :
    ∀ n ∈ st.algo_out_expr, (dictGet (Sim.outDict st' n) i).isSome := by
  unfold runTrial at h
  obtain ⟨hb1, h1⟩ := andThen_ok h
  obtain ⟨hb2, h2⟩ := andThen_ok h1
  obtain ⟨hb3, h3⟩ := andThen_ok h2
  obtain ⟨hb4, h4⟩ := andThen_ok h3
  have hstat : staticEq st (stepMag o i (stepGps o i (stepGyro o i
      (stepAccel o i st).1).1).1).1 :=
    staticEq_trans (stepAccel_inv o i st).1
      (staticEq_trans (stepGyro_inv o i _).1
        (staticEq_trans (stepGps_inv o i _).1 (stepMag_inv o i _).1))
  have ha4 : ((stepMag o i (stepGps o i (stepGyro o i
      (stepAccel o i st).1).1).1).1).algo.isSome := by
    rw [staticEq_algo hstat]
    exact ha
  have hout4 : ((stepMag o i (stepGps o i (stepGyro o i
      (stepAccel o i st).1).1).1).1).algo_out_expr = st.algo_out_expr :=
    staticEq_algo_out_expr hstat
  intro n hn
  refine stepAlgo_ok_outputs o i _ st' h4 ha4 ?_ n ?_
  · rw [hout4]
    exact hvalid
  · rw [hout4]
    exact hn

theorem runTrialsFrom_ok_outputs (o : Oracle) :
    ∀ (fuel i : Nat) (st st' : Sim), runTrialsFrom o i fuel st = (st', none) →
      st.algo.isSome →
      (∀ n ∈ st.algo_out_expr, (dictGet supported_out_def (RegKey.str n)).isSome) →
      ∀ j, i ≤ j → j < i + fuel → ∀ n ∈ st.algo_out_expr,
        (dictGet (Sim.outDict st' n) j).isSome := by
  intro fuel
  induction fuel with
  | zero => intro i st st' h ha hvalid j h1 h2; omega
  | succ fuel ih =>
    intro i st st' h ha hvalid j h1 h2
    unfold runTrialsFrom at h
    cases hR : runTrial o i st with
    | mk st1 b =>
      rw [hR] at h
      cases b
      · exact absurd (congrArg Prod.snd h) (by simp)
      · have hstat : staticEq st st1 := by
          have hs := (runTrial_inv o i st).1
          rwa [hR] at hs
        by_cases hji : j = i
        · subst hji
          intro n hn
          have hw := runTrial_ok_outputs o j st st1 hR ha hvalid n hn
          have hred : (runTrialsFrom o (j + 1) fuel st1).1 = st' := congrArg Prod.fst h
          have hoffList : trialDictsAt j st' = trialDictsAt j st1 := by
            have := runTrialsFrom_off o fuel (j + 1) st1 j (Or.inl (by omega))
            rwa [hred] at this
          rw [outDict_eq_of_trialDictsAt hoffList (hvalid n hn)]
          exact hw
        · intro n hn
          have ha1 : st1.algo.isSome := by
            rw [staticEq_algo hstat]
            exact ha
          have hout1 : st1.algo_out_expr = st.algo_out_expr := staticEq_algo_out_expr hstat
          refine ih (i + 1) st1 st' h ha1 ?_ j (by omega) (by omega) n ?_
          · rw [hout1]
            exact hvalid
          · rw [hout1]
            exact hn

/-! ### What one trial writes, exactly -/

theorem staticEq_ref_frame_data {a b : Sim} (h : staticEq a b) :
    b.ref_frame_data = a.ref_frame_data :=
  congrArg (fun t => t.2.2.2.2.1) h

theorem staticEq_algo_in_expr {a b : Sim} (h : staticEq a b) :
    b.algo_in_expr = a.algo_in_expr :=
  congrArg (fun t => t.2.2.2.2.2.2.2.2.2.2.1) h

theorem staticEq_ref_pos_data {a b : Sim} (h : staticEq a b) :
    b.ref_pos_data = a.ref_pos_data :=
  congrArg (fun t => t.2.2.2.2.2.2.2.2.2.2.2.2.2.2.2.2.2.2.1) h

theorem staticEq_ref_vel_data {a b : Sim} (h : staticEq a b) :
    b.ref_vel_data = a.ref_vel_data :=
  congrArg (fun t => t.2.2.2.2.2.2.2.2.2.2.2.2.2.2.2.2.2.2.2.1) h

theorem staticEq_ref_att_data {a b : Sim} (h : staticEq a b) :
    b.ref_att_data = a.ref_att_data :=
  congrArg (fun t => t.2.2.2.2.2.2.2.2.2.2.2.2.2.2.2.2.2.2.2.2.1) h

theorem staticEq_ref_gps_data {a b : Sim} (h : staticEq a b) :
    b.ref_gps_data = a.ref_gps_data :=
  congrArg (fun t => t.2.2.2.2.2.2.2.2.2.2.2.2.2.2.2.2.2.2.2.2.2.2.2.2.1) h

theorem staticEq_ref_mag_data {a b : Sim} (h : staticEq a b) :
    b.ref_mag_data = a.ref_mag_data :=
  congrArg (fun t => t.2.2.2.2.2.2.2.2.2.2.2.2.2.2.2.2.2.2.2.2.2.2.2.2.2) h

theorem stepGps_ok (o : Oracle) (i : Nat) (st : Sim) (hgps : st.imu.gps = true)
    (h : (stepGps o i st).2 = true) :
    ∃ v, o.gps_gen i st.ref_gps_data st.imu.gps_err st.ref_frame_data = Except.ok v ∧
      (stepGps o i st).1 = { st with gps_data := dictSet st.gps_data i v } := by
  rcases hr : o.gps_gen i st.ref_gps_data st.imu.gps_err st.ref_frame_data with e | v
  · exfalso
    unfold stepGps at h
    rw [if_pos hgps, hr] at h
    cases h
  · refine ⟨v, rfl, ?_⟩
    unfold stepGps
    rw [if_pos hgps, hr]

theorem stepGps_off (o : Oracle) (i : Nat) (st : Sim) (hgps : st.imu.gps = false) :
    stepGps o i st = (st, true) := by
  unfold stepGps
  rw [if_neg (by rw [hgps]; simp)]

theorem stepMag_ok (o : Oracle) (i : Nat) (st : Sim) (hmag : st.imu.magnetometer = true)
    (h : (stepMag o i st).2 = true) :
    ∃ w, o.mag_gen i st.ref_mag_data st.imu.mag_err = Except.ok w ∧
      (stepMag o i st).1 = { st with mag_data := dictSet st.mag_data i w } := by
  rcases hr : o.mag_gen i st.ref_mag_data st.imu.mag_err with e | w
  · exfalso
    unfold stepMag at h
    rw [if_pos hmag, hr] at h
    cases h
  · refine ⟨w, rfl, ?_⟩
    unfold stepMag
    rw [if_pos hmag, hr]

theorem stepMag_off (o : Oracle) (i : Nat) (st : Sim)
    (hmag : st.imu.magnetometer = false) : stepMag o i st = (st, true) := by
  unfold stepMag
  rw [if_neg (by rw [hmag]; simp)]

theorem stepAccel_other (o : Oracle) (i : Nat) (st : Sim) :
    (stepAccel o i st).1.gyro_data = st.gyro_data ∧
    (stepAccel o i st).1.gps_data = st.gps_data ∧
    (stepAccel o i st).1.mag_data = st.mag_data := by
  unfold stepAccel
  rcases o.acc_gen i st.fs_data st.ref_accel_data st.imu.accel_err st.vib_def with e | a <;>
    exact ⟨rfl, rfl, rfl⟩

theorem stepGyro_other (o : Oracle) (i : Nat) (st : Sim) :
    (stepGyro o i st).1.accel_data = st.accel_data ∧
    (stepGyro o i st).1.gps_data = st.gps_data ∧
    (stepGyro o i st).1.mag_data = st.mag_data := by
  unfold stepGyro
  rcases o.gyro_gen i st.fs_data st.ref_gyro_data st.imu.gyro_err with e | g <;>
    exact ⟨rfl, rfl, rfl⟩

theorem stepGps_other (o : Oracle) (i : Nat) (st : Sim) :
    (stepGps o i st).1.accel_data = st.accel_data ∧
    (stepGps o i st).1.gyro_data = st.gyro_data ∧
    (stepGps o i st).1.mag_data = st.mag_data := by
  unfold stepGps
  by_cases hg : st.imu.gps
  · rw [if_pos hg]
    rcases o.gps_gen i st.ref_gps_data st.imu.gps_err st.ref_frame_data with e | v <;>
      exact ⟨rfl, rfl, rfl⟩
  · rw [if_neg hg]
    exact ⟨rfl, rfl, rfl⟩

theorem stepMag_other (o : Oracle) (i : Nat) (st : Sim) :
    (stepMag o i st).1.accel_data = st.accel_data ∧
    (stepMag o i st).1.gyro_data = st.gyro_data ∧
    (stepMag o i st).1.gps_data = st.gps_data := by
  unfold stepMag
  by_cases hm : st.imu.magnetometer
  · rw [if_pos hm]
    rcases o.mag_gen i st.ref_mag_data st.imu.mag_err with e | w <;> exact ⟨rfl, rfl, rfl⟩
  · rw [if_neg hm]
    exact ⟨rfl, rfl, rfl⟩

theorem setOutData_other (st : Sim) (name : String) (i : Nat) (v : Arr) :
    (setOutData st name i v).accel_data = st.accel_data ∧
    (setOutData st name i v).gyro_data = st.gyro_data ∧
    (setOutData st name i v).gps_data = st.gps_data ∧
    (setOutData st name i v).mag_data = st.mag_data := by
  unfold setOutData
  split <;> exact ⟨rfl, rfl, rfl, rfl⟩

theorem storeOutputs_other (i : Nat) :
    ∀ (ns : List String) (vs : List Arr) (st : Sim),
      (storeOutputs st i ns vs).accel_data = st.accel_data ∧
      (storeOutputs st i ns vs).gyro_data = st.gyro_data ∧
      (storeOutputs st i ns vs).gps_data = st.gps_data ∧
      (storeOutputs st i ns vs).mag_data = st.mag_data := by
  intro ns
  induction ns with
  | nil =>
    intro vs st
    simp [storeOutputs]
  | cons n ns ih =>
    intro vs st
    cases vs with
    | nil => simp [storeOutputs]
    | cons v vs =>
      simp only [storeOutputs]
      obtain ⟨i1, i2, i3, i4⟩ := ih vs (setOutData st n i v)
      obtain ⟨s1, s2, s3, s4⟩ := setOutData_other st n i v
      exact ⟨i1.trans s1, i2.trans s2, i3.trans s3, i4.trans s4⟩

theorem stepAlgo_other (o : Oracle) (i : Nat) (st : Sim) :
    (stepAlgo o i st).1.accel_data = st.accel_data ∧
    (stepAlgo o i st).1.gyro_data = st.gyro_data ∧
    (stepAlgo o i st).1.gps_data = st.gps_data ∧
    (stepAlgo o i st).1.mag_data = st.mag_data := by
  unfold stepAlgo
  cases h : st.algo with
  | none => exact ⟨rfl, rfl, rfl, rfl⟩
  | some a =>
    rcases o.algo_run i (st.buildInputs i) with e | outs
    · exact ⟨rfl, rfl, rfl, rfl⟩
    · show ((if outs.length = st.algo_out_expr.length
          then (storeOutputs st i st.algo_out_expr outs, true) else (st, false)).1.accel_data
            = st.accel_data) ∧
        ((if outs.length = st.algo_out_expr.length
          then (storeOutputs st i st.algo_out_expr outs, true) else (st, false)).1.gyro_data
            = st.gyro_data) ∧
        ((if outs.length = st.algo_out_expr.length
          then (storeOutputs st i st.algo_out_expr outs, true) else (st, false)).1.gps_data
            = st.gps_data) ∧
        ((if outs.length = st.algo_out_expr.length
          then (storeOutputs st i st.algo_out_expr outs, true) else (st, false)).1.mag_data
            = st.mag_data)
      by_cases hl : outs.length = st.algo_out_expr.length
      · rw [if_pos hl]
        exact storeOutputs_other i st.algo_out_expr outs st
      · rw [if_neg hl]
        exact ⟨rfl, rfl, rfl, rfl⟩

/-- The value `self.<n>.data[i]` holds at the moment trial `i` invokes the
algorithm, expressed from the state the trial started in: the
accelerometer and gyroscope entries are this trial's fresh synthesis
results, the GPS/magnetometer entries likewise when the sensor is enabled
and otherwise whatever the dictionary already held at `i`. -/
def trialVaryingVal (o : Oracle) (st : Sim) (i : Nat) (n : String) : Option Arr :=
  match n with
  | "gyro" => (o.gyro_gen i st.fs_data st.ref_gyro_data st.imu.gyro_err).toOption
  | "accel" => (o.acc_gen i st.fs_data st.ref_accel_data st.imu.accel_err st.vib_def).toOption
  | "gps" =>
    if st.imu.gps then
      (o.gps_gen i st.ref_gps_data st.imu.gps_err st.ref_frame_data).toOption
    else dictGet st.gps_data i
  | "mag" =>
    if st.imu.magnetometer then (o.mag_gen i st.ref_mag_data st.imu.mag_err).toOption
    else dictGet st.mag_data i
  | _ => none

/-- The argument list `eval(self.algo_in_expr...)` produces at trial `i`,
expressed from the state the trial started in. -/
def trialAlgoInputs (o : Oracle) (st : Sim) (i : Nat) : List Val :=
  st.algo_in_expr.map fun arg =>
    match arg with
    | AlgoArg.const n => st.constData n
    | AlgoArg.varying n =>
      match trialVaryingVal o st i n with
      | some a => Val.arr a
      | none => Val.keyError

/-- The value the generated `exec` unpacking leaves for output name `n`:
the value paired with the last occurrence of `n` in the declared output
list (a later duplicate assignment overwrites an earlier one). -/
def lastOutputFor : List String → List Arr → String → Option Arr
  | [], _, _ => none
  | _, [], _ => none
  | n0 :: ns, v :: vs, n =>
    match lastOutputFor ns vs n with
    | some w => some w
    | none => if n0 = n then some v else none

theorem varyingDict_default (st : Sim) (n : String) (h1 : n ≠ "gyro") (h2 : n ≠ "accel")
    (h3 : n ≠ "gps") (h4 : n ≠ "mag") : Sim.varyingDict st n = [] := by
  unfold Sim.varyingDict
  split <;> first | rfl | simp_all

theorem trialVaryingVal_default (o : Oracle) (st : Sim) (i : Nat) (n : String)
    (h1 : n ≠ "gyro") (h2 : n ≠ "accel") (h3 : n ≠ "gps") (h4 : n ≠ "mag") :
    trialVaryingVal o st i n = none := by
  unfold trialVaryingVal
  split <;> first | rfl | simp_all

theorem constData_default (st : Sim) (n : String) (h1 : n ≠ "fs") (h2 : n ≠ "ref_frame")
    (h3 : n ≠ "ref_pos") (h4 : n ≠ "ref_vel") (h5 : n ≠ "ref_att") (h6 : n ≠ "ref_gyro")
    (h7 : n ≠ "ref_accel") (h8 : n ≠ "ref_gps") : Sim.constData st n = Val.emptyDict := by
  unfold Sim.constData
  split <;> first | rfl | simp_all

theorem constData_staticEq {a b : Sim} (h : staticEq a b) (n : String) :
    Sim.constData b n = Sim.constData a n := by
  by_cases h1 : n = "fs"
  · subst h1
    simp only [Sim.constData]
    rw [staticEq_fs_data h]
  by_cases h2 : n = "ref_frame"
  · subst h2
    simp only [Sim.constData]
    rw [staticEq_ref_frame_data h]
  by_cases h3 : n = "ref_pos"
  · subst h3
    simp only [Sim.constData]
    rw [staticEq_ref_pos_data h]
  by_cases h4 : n = "ref_vel"
  · subst h4
    simp only [Sim.constData]
    rw [staticEq_ref_vel_data h]
  by_cases h5 : n = "ref_att"
  · subst h5
    simp only [Sim.constData]
    rw [staticEq_ref_att_data h]
  by_cases h6 : n = "ref_gyro"
  · subst h6
    simp only [Sim.constData]
    rw [staticEq_ref_gyro_data h]
  by_cases h7 : n = "ref_accel"
  · subst h7
    simp only [Sim.constData]
    rw [staticEq_ref_accel_data h]
  by_cases h8 : n = "ref_gps"
  · subst h8
    simp only [Sim.constData]
    rw [staticEq_ref_gps_data h]
  rw [constData_default b n h1 h2 h3 h4 h5 h6 h7 h8,
    constData_default a n h1 h2 h3 h4 h5 h6 h7 h8]

theorem trialVaryingVal_congr (o : Oracle) (j : Nat) {a b : Sim}
    (hstat : staticEq a b) (hdict : trialDictsAt j b = trialDictsAt j a) (n : String) :
    trialVaryingVal o b j n = trialVaryingVal o a j n := by
  simp only [trialDictsAt, List.cons.injEq, and_true] at hdict
  obtain ⟨e1, e2, e3, e4, _, _, _, _, _, _, _, _, _⟩ := hdict
  by_cases h1 : n = "gyro"
  · subst h1
    simp only [trialVaryingVal]
    rw [staticEq_fs_data hstat, staticEq_ref_gyro_data hstat, staticEq_imu hstat]
  by_cases h2 : n = "accel"
  · subst h2
    simp only [trialVaryingVal]
    rw [staticEq_fs_data hstat, staticEq_ref_accel_data hstat, staticEq_imu hstat,
      staticEq_vib_def hstat]
  by_cases h3 : n = "gps"
  · subst h3
    simp only [trialVaryingVal]
    rw [staticEq_imu hstat, staticEq_ref_gps_data hstat, staticEq_ref_frame_data hstat]
    cases hflag : a.imu.gps
    · simp [e3]
    · simp
  by_cases h4 : n = "mag"
  · subst h4
    simp only [trialVaryingVal]
    rw [staticEq_imu hstat, staticEq_ref_mag_data hstat]
    cases hflag : a.imu.magnetometer
    · simp [e4]
    · simp
  rw [trialVaryingVal_default o b j n h1 h2 h3 h4,
    trialVaryingVal_default o a j n h1 h2 h3 h4]

theorem trialAlgoInputs_congr (o : Oracle) (j : Nat) {a b : Sim}
    (hstat : staticEq a b) (hdict : trialDictsAt j b = trialDictsAt j a) :
    trialAlgoInputs o b j = trialAlgoInputs o a j := by
  unfold trialAlgoInputs
  rw [staticEq_algo_in_expr hstat]
  apply List.map_congr_left
  intro arg _
  cases arg with
  | const n =>
    show Sim.constData b n = Sim.constData a n
    exact constData_staticEq hstat n
  | varying n =>
    show (match trialVaryingVal o b j n with
      | some x => Val.arr x
      | none => Val.keyError) = (match trialVaryingVal o a j n with
      | some x => Val.arr x
      | none => Val.keyError)
    rw [trialVaryingVal_congr o j hstat (by
      simp only [trialDictsAt, List.cons.injEq, and_true] at hdict ⊢
      exact hdict) n]

theorem trial_s4_accel (o : Oracle) (i : Nat) (st : Sim)
    (hb1 : (stepAccel o i st).2 = true) :
    dictGet ((stepMag o i (stepGps o i (stepGyro o i
        (stepAccel o i st).1).1).1).1).accel_data i =
      (o.acc_gen i st.fs_data st.ref_accel_data st.imu.accel_err st.vib_def).toOption := by
  obtain ⟨a, hacc, hs1⟩ := stepAccel_ok o i st hb1
  rw [(stepMag_other o i _).1, (stepGps_other o i _).1, (stepGyro_other o i _).1, hs1, hacc]
  simp [dictGet_dictSet, Except.toOption]

theorem trial_s4_gyro (o : Oracle) (i : Nat) (st : Sim)
    (hb2 : (stepGyro o i (stepAccel o i st).1).2 = true) :
    dictGet ((stepMag o i (stepGps o i (stepGyro o i
        (stepAccel o i st).1).1).1).1).gyro_data i =
      (o.gyro_gen i st.fs_data st.ref_gyro_data st.imu.gyro_err).toOption := by
  obtain ⟨g, hgyro, hs2⟩ := stepGyro_ok o i _ hb2
  have hstat1 : staticEq st (stepAccel o i st).1 := (stepAccel_inv o i st).1
  rw [staticEq_fs_data hstat1, staticEq_ref_gyro_data hstat1, staticEq_imu hstat1] at hgyro
  rw [(stepMag_other o i _).2.1, (stepGps_other o i _).2.1, hs2, hgyro]
  simp [dictGet_dictSet, Except.toOption]

theorem trial_s4_gps (o : Oracle) (i : Nat) (st : Sim)
    (hb3 : (stepGps o i (stepGyro o i (stepAccel o i st).1).1).2 = true) :
    dictGet ((stepMag o i (stepGps o i (stepGyro o i
        (stepAccel o i st).1).1).1).1).gps_data i =
      (if st.imu.gps then
        (o.gps_gen i st.ref_gps_data st.imu.gps_err st.ref_frame_data).toOption
      else dictGet st.gps_data i) := by
  have hstat2 : staticEq st (stepGyro o i (stepAccel o i st).1).1 :=
    staticEq_trans (stepAccel_inv o i st).1 (stepGyro_inv o i _).1
  rw [(stepMag_other o i _).2.2]
  cases hflag : st.imu.gps with
  | true =>
    have hflag2 : ((stepGyro o i (stepAccel o i st).1).1).imu.gps = true := by
      rw [staticEq_imu hstat2]
      exact hflag
    obtain ⟨v, hv, hs3⟩ := stepGps_ok o i _ hflag2 hb3
    rw [staticEq_ref_gps_data hstat2, staticEq_imu hstat2, staticEq_ref_frame_data hstat2] at hv
    rw [hs3, hv]
    simp [dictGet_dictSet, Except.toOption]
  | false =>
    rw [stepGps_off o i _ (by rw [staticEq_imu hstat2]; exact hflag)]
    show dictGet ((stepGyro o i (stepAccel o i st).1).1).gps_data i = _
    rw [(stepGyro_other o i _).2.1, (stepAccel_other o i st).2.1]
    simp

theorem trial_s4_mag (o : Oracle) (i : Nat) (st : Sim)
    (hb4 : (stepMag o i (stepGps o i (stepGyro o i (stepAccel o i st).1).1).1).2 = true) :
    dictGet ((stepMag o i (stepGps o i (stepGyro o i
        (stepAccel o i st).1).1).1).1).mag_data i =
      (if st.imu.magnetometer then (o.mag_gen i st.ref_mag_data st.imu.mag_err).toOption
      else dictGet st.mag_data i) := by
  have hstat3 : staticEq st (stepGps o i (stepGyro o i (stepAccel o i st).1).1).1 :=
    staticEq_trans (stepAccel_inv o i st).1
      (staticEq_trans (stepGyro_inv o i _).1 (stepGps_inv o i _).1)
  cases hflag : st.imu.magnetometer with
  | true =>
    have hflag3 : ((stepGps o i (stepGyro o i (stepAccel o i st).1).1).1).imu.magnetometer =
        true := by
      rw [staticEq_imu hstat3]
      exact hflag
    obtain ⟨w, hw, hs4⟩ := stepMag_ok o i _ hflag3 hb4
    rw [staticEq_ref_mag_data hstat3, staticEq_imu hstat3] at hw
    rw [hs4, hw]
    simp [dictGet_dictSet, Except.toOption]
  | false =>
    rw [stepMag_off o i _ (by rw [staticEq_imu hstat3]; exact hflag)]
    show dictGet ((stepGps o i (stepGyro o i (stepAccel o i st).1).1).1).mag_data i = _
    rw [(stepGps_other o i _).2.2, (stepGyro_other o i _).2.2, (stepAccel_other o i st).2.2]
    simp

theorem runTrial_inputs (o : Oracle) (i : Nat) (st : Sim)
    (hb1 : (stepAccel o i st).2 = true)
    (hb2 : (stepGyro o i (stepAccel o i st).1).2 = true)
    (hb3 : (stepGps o i (stepGyro o i (stepAccel o i st).1).1).2 = true)
    (hb4 : (stepMag o i (stepGps o i (stepGyro o i (stepAccel o i st).1).1).1).2 = true) :
    Sim.buildInputs
      ((stepMag o i (stepGps o i (stepGyro o i (stepAccel o i st).1).1).1).1) i =
      trialAlgoInputs o st i := by
  have hstat4 : staticEq st
      ((stepMag o i (stepGps o i (stepGyro o i (stepAccel o i st).1).1).1).1) :=
    staticEq_trans (stepAccel_inv o i st).1
      (staticEq_trans (stepGyro_inv o i _).1
        (staticEq_trans (stepGps_inv o i _).1 (stepMag_inv o i _).1))
  unfold Sim.buildInputs trialAlgoInputs
  rw [staticEq_algo_in_expr hstat4]
  apply List.map_congr_left
  intro arg _
  cases arg with
  | const n =>
    show Sim.constData
      ((stepMag o i (stepGps o i (stepGyro o i (stepAccel o i st).1).1).1).1) n =
      Sim.constData st n
    exact constData_staticEq hstat4 n
  | varying n =>
    have hopt : dictGet (Sim.varyingDict
        ((stepMag o i (stepGps o i (stepGyro o i (stepAccel o i st).1).1).1).1) n) i =
        trialVaryingVal o st i n := by
      by_cases h1 : n = "gyro"
      · subst h1
        simp only [Sim.varyingDict, trialVaryingVal]
        exact trial_s4_gyro o i st hb2
      by_cases h2 : n = "accel"
      · subst h2
        simp only [Sim.varyingDict, trialVaryingVal]
        exact trial_s4_accel o i st hb1
      by_cases h3 : n = "gps"
      · subst h3
        simp only [Sim.varyingDict, trialVaryingVal]
        exact trial_s4_gps o i st hb3
      by_cases h4 : n = "mag"
      · subst h4
        simp only [Sim.varyingDict, trialVaryingVal]
        exact trial_s4_mag o i st hb4
      rw [varyingDict_default _ n h1 h2 h3 h4, trialVaryingVal_default o st i n h1 h2 h3 h4]
      rfl
    show (match dictGet (Sim.varyingDict
        ((stepMag o i (stepGps o i (stepGyro o i (stepAccel o i st).1).1).1).1) n) i with
      | some x => Val.arr x
      | none => Val.keyError) = (match trialVaryingVal o st i n with
      | some x => Val.arr x
      | none => Val.keyError)
    rw [hopt]

theorem runTrial_ok_gps (o : Oracle) (i : Nat) (st st' : Sim)
    (h : runTrial o i st = (st', true)) (hflag : st.imu.gps = true) :
    ∃ v, o.gps_gen i st.ref_gps_data st.imu.gps_err st.ref_frame_data = Except.ok v ∧
      dictGet st'.gps_data i = some v := by
  unfold runTrial at h
  obtain ⟨hb1, h1⟩ := andThen_ok h
  obtain ⟨hb2, h2⟩ := andThen_ok h1
  obtain ⟨hb3, h3⟩ := andThen_ok h2
  obtain ⟨hb4, h4⟩ := andThen_ok h3
  have hstat2 : staticEq st (stepGyro o i (stepAccel o i st).1).1 :=
    staticEq_trans (stepAccel_inv o i st).1 (stepGyro_inv o i _).1
  have hflag2 : ((stepGyro o i (stepAccel o i st).1).1).imu.gps = true := by
    rw [staticEq_imu hstat2]
    exact hflag
  obtain ⟨v, hv, _⟩ := stepGps_ok o i _ hflag2 hb3
  rw [staticEq_ref_gps_data hstat2, staticEq_imu hstat2, staticEq_ref_frame_data hstat2] at hv
  refine ⟨v, hv, ?_⟩
  have hs : (stepAlgo o i (stepMag o i (stepGps o i (stepGyro o i
      (stepAccel o i st).1).1).1).1).1 = st' := congrArg Prod.fst h4
  rw [← hs, (stepAlgo_other o i _).2.2.1, trial_s4_gps o i st hb3]
  simp [hflag, hv, Except.toOption]

theorem runTrial_ok_mag (o : Oracle) (i : Nat) (st st' : Sim)
    (h : runTrial o i st = (st', true)) (hflag : st.imu.magnetometer = true) :
    ∃ w, o.mag_gen i st.ref_mag_data st.imu.mag_err = Except.ok w ∧
      dictGet st'.mag_data i = some w := by
  unfold runTrial at h
  obtain ⟨hb1, h1⟩ := andThen_ok h
  obtain ⟨hb2, h2⟩ := andThen_ok h1
  obtain ⟨hb3, h3⟩ := andThen_ok h2
  obtain ⟨hb4, h4⟩ := andThen_ok h3
  have hstat3 : staticEq st (stepGps o i (stepGyro o i (stepAccel o i st).1).1).1 :=
    staticEq_trans (stepAccel_inv o i st).1
      (staticEq_trans (stepGyro_inv o i _).1 (stepGps_inv o i _).1)
  have hflag3 : ((stepGps o i (stepGyro o i (stepAccel o i st).1).1).1).imu.magnetometer =
      true := by
    rw [staticEq_imu hstat3]
    exact hflag
  obtain ⟨w, hw, _⟩ := stepMag_ok o i _ hflag3 hb4
  rw [staticEq_ref_mag_data hstat3, staticEq_imu hstat3] at hw
  refine ⟨w, hw, ?_⟩
  have hs : (stepAlgo o i (stepMag o i (stepGps o i (stepGyro o i
      (stepAccel o i st).1).1).1).1).1 = st' := congrArg Prod.fst h4
  rw [← hs, (stepAlgo_other o i _).2.2.2, trial_s4_mag o i st hb4]
  simp [hflag, hw, Except.toOption]

theorem outDict_setOutData_ne (st : Sim) (n n' : String) (i : Nat) (v : Arr)
    (h : n ≠ n') : Sim.outDict (setOutData st n i v) n' = Sim.outDict st n' := by
  unfold setOutData Sim.outDict
  split <;> (try split) <;> simp_all

theorem storeOutputs_last (i : Nat) :
    ∀ (ns : List String) (vs : List Arr) (st : Sim) (n : String),
      (dictGet supported_out_def (RegKey.str n)).isSome →
      dictGet (Sim.outDict (storeOutputs st i ns vs) n) i =
        (match lastOutputFor ns vs n with
         | some w => some w
         | none => dictGet (Sim.outDict st n) i) := by
  intro ns
  induction ns with
  | nil =>
    intro vs st n _
    cases vs <;> simp [storeOutputs, lastOutputFor]
  | cons n0 ns ih =>
    intro vs st n hn
    cases vs with
    | nil => simp [storeOutputs, lastOutputFor]
    | cons v vs =>
      simp only [storeOutputs, lastOutputFor]
      rw [ih vs (setOutData st n0 i v) n hn]
      cases hL : lastOutputFor ns vs n with
      | some w => rfl
      | none =>
        by_cases he : n0 = n
        · subst he
          rw [if_pos rfl]
          exact setOutData_get_same st n0 i v hn
        · rw [if_neg he, outDict_setOutData_ne st n0 n i v he]

theorem lastOutputFor_isSome :
    ∀ (ns : List String) (vs : List Arr), vs.length = ns.length →
      ∀ n ∈ ns, (lastOutputFor ns vs n).isSome := by
  intro ns
  induction ns with
  | nil =>
    intro vs _ n hn
    exact absurd hn (List.not_mem_nil n)
  | cons n0 ns ih =>
    intro vs hlen n hn
    cases vs with
    | nil => simp at hlen
    | cons v vs =>
      simp only [lastOutputFor]
      cases hL : lastOutputFor ns vs n with
      | some w => rfl
      | none =>
        rcases List.mem_cons.mp hn with hh | hh
        · rw [if_pos hh.symm]
          rfl
        · have := ih vs (by simpa using hlen) n hh
          rw [hL] at this
          cases this

theorem runTrial_ok_algo (o : Oracle) (i : Nat) (st st' : Sim)
    (h : runTrial o i st = (st', true)) (a0 : Algorithm) (hA : st.algo = some a0)
    (hvalid : ∀ n ∈ st.algo_out_expr, (dictGet supported_out_def (RegKey.str n)).isSome) :
    ∃ outs, o.algo_run i (trialAlgoInputs o st i) = Except.ok outs ∧
      outs.length = st.algo_out_expr.length ∧
      ∀ n ∈ st.algo_out_expr,
        dictGet (Sim.outDict st' n) i = lastOutputFor st.algo_out_expr outs n := by
  unfold runTrial at h
  obtain ⟨hb1, h1⟩ := andThen_ok h
  obtain ⟨hb2, h2⟩ := andThen_ok h1
  obtain ⟨hb3, h3⟩ := andThen_ok h2
  obtain ⟨hb4, h4⟩ := andThen_ok h3
  have hstat4 : staticEq st
      ((stepMag o i (stepGps o i (stepGyro o i (stepAccel o i st).1).1).1).1) :=
    staticEq_trans (stepAccel_inv o i st).1
      (staticEq_trans (stepGyro_inv o i _).1
        (staticEq_trans (stepGps_inv o i _).1 (stepMag_inv o i _).1))
  have hA4 : ((stepMag o i (stepGps o i (stepGyro o i
      (stepAccel o i st).1).1).1).1).algo = some a0 := by
    rw [staticEq_algo hstat4]
    exact hA
  have hout4 : ((stepMag o i (stepGps o i (stepGyro o i
      (stepAccel o i st).1).1).1).1).algo_out_expr = st.algo_out_expr :=
    staticEq_algo_out_expr hstat4
  have hin : Sim.buildInputs
      ((stepMag o i (stepGps o i (stepGyro o i (stepAccel o i st).1).1).1).1) i =
      trialAlgoInputs o st i := runTrial_inputs o i st hb1 hb2 hb3 hb4
  rcases hr : o.algo_run i (Sim.buildInputs
      ((stepMag o i (stepGps o i (stepGyro o i (stepAccel o i st).1).1).1).1) i)
    with e | outs
  · rw [stepAlgo_eq_err o i _ a0 e hA4 hr] at h4
    exact absurd (congrArg Prod.snd h4) (by simp)
  · rw [stepAlgo_eq_some o i _ a0 outs hA4 hr] at h4
    by_cases hl : outs.length = ((stepMag o i (stepGps o i (stepGyro o i
        (stepAccel o i st).1).1).1).1).algo_out_expr.length
    · rw [if_pos hl] at h4
      have hst1 : storeOutputs
          ((stepMag o i (stepGps o i (stepGyro o i (stepAccel o i st).1).1).1).1) i
          ((stepMag o i (stepGps o i (stepGyro o i
            (stepAccel o i st).1).1).1).1).algo_out_expr outs = st' :=
        congrArg Prod.fst h4
      have hlen : outs.length = st.algo_out_expr.length := by
        rw [← hout4]
        exact hl
      refine ⟨outs, by rw [← hin]; exact hr, hlen, ?_⟩
      intro n hn
      rw [← hst1, hout4,
        storeOutputs_last i st.algo_out_expr outs _ n (hvalid n hn)]
      cases hL : lastOutputFor st.algo_out_expr outs n with
      | some w => rfl
      | none =>
        have hsome := lastOutputFor_isSome st.algo_out_expr outs hlen n hn
        rw [hL] at hsome
        cases hsome
    · rw [if_neg hl] at h4
      exact absurd (congrArg Prod.snd h4) (by simp)

theorem runTrialsFrom_ok_gpsmag (o : Oracle) :
    ∀ (fuel i : Nat) (st st' : Sim), runTrialsFrom o i fuel st = (st', none) →
      ∀ j, i ≤ j → j < i + fuel →
        (st.imu.gps = true →
          ∃ v, o.gps_gen j st.ref_gps_data st.imu.gps_err st.ref_frame_data = Except.ok v ∧
            dictGet st'.gps_data j = some v) ∧
        (st.imu.magnetometer = true →
          ∃ w, o.mag_gen j st.ref_mag_data st.imu.mag_err = Except.ok w ∧
            dictGet st'.mag_data j = some w) := by
  intro fuel
  induction fuel with
  | zero => intro i st st' h j h1 h2; omega
  | succ fuel ih =>
    intro i st st' h j h1 h2
    unfold runTrialsFrom at h
    cases hR : runTrial o i st with
    | mk st1 b =>
      rw [hR] at h
      cases b
      · exact absurd (congrArg Prod.snd h) (by simp)
      · have hstat : staticEq st st1 := by
          have := (runTrial_inv o i st).1
          rwa [hR] at this
        by_cases hji : j = i
        · subst hji
          have hoffList : trialDictsAt j st' = trialDictsAt j st1 := by
            have hred : (runTrialsFrom o (j + 1) fuel st1).1 = st' := congrArg Prod.fst h
            have := runTrialsFrom_off o fuel (j + 1) st1 j (Or.inl (by omega))
            rwa [hred] at this
          simp only [trialDictsAt, List.cons.injEq] at hoffList
          constructor
          · intro hflag
            obtain ⟨v, hv, hg⟩ := runTrial_ok_gps o j st st1 hR hflag
            refine ⟨v, hv, ?_⟩
            rw [hoffList.2.2.1]
            exact hg
          · intro hflag
            obtain ⟨w, hw, hm⟩ := runTrial_ok_mag o j st st1 hR hflag
            refine ⟨w, hw, ?_⟩
            rw [hoffList.2.2.2.1]
            exact hm
        · obtain ⟨hgps, hmag⟩ := ih (i + 1) st1 st' h j (by omega) (by omega)
          constructor
          · intro hflag
            obtain ⟨v, hv, hg⟩ := hgps (by rw [staticEq_imu hstat]; exact hflag)
            rw [staticEq_ref_gps_data hstat, staticEq_imu hstat,
              staticEq_ref_frame_data hstat] at hv
            exact ⟨v, hv, hg⟩
          · intro hflag
            obtain ⟨w, hw, hm⟩ := hmag (by rw [staticEq_imu hstat]; exact hflag)
            rw [staticEq_ref_mag_data hstat, staticEq_imu hstat] at hw
            exact ⟨w, hw, hm⟩

theorem runTrialsFrom_ok_algo (o : Oracle) :
    ∀ (fuel i : Nat) (st st' : Sim), runTrialsFrom o i fuel st = (st', none) →
      ∀ a0, st.algo = some a0 →
      (∀ n ∈ st.algo_out_expr, (dictGet supported_out_def (RegKey.str n)).isSome) →
      ∀ j, i ≤ j → j < i + fuel →
        ∃ outs, o.algo_run j (trialAlgoInputs o st j) = Except.ok outs ∧
          outs.length = st.algo_out_expr.length ∧
          ∀ n ∈ st.algo_out_expr,
            dictGet (Sim.outDict st' n) j = lastOutputFor st.algo_out_expr outs n := by
  intro fuel
  induction fuel with
  | zero => intro i st st' h a0 hA hvalid j h1 h2; omega
  | succ fuel ih =>
    intro i st st' h a0 hA hvalid j h1 h2
    unfold runTrialsFrom at h
    cases hR : runTrial o i st with
    | mk st1 b =>
      rw [hR] at h
      cases b
      · exact absurd (congrArg Prod.snd h) (by simp)
      · have hstat : staticEq st st1 := by
          have := (runTrial_inv o i st).1
          rwa [hR] at this
        by_cases hji : j = i
        · subst hji
          obtain ⟨outs, hro, hlen, hvals⟩ := runTrial_ok_algo o j st st1 hR a0 hA hvalid
          have hoffList : trialDictsAt j st' = trialDictsAt j st1 := by
            have hred : (runTrialsFrom o (j + 1) fuel st1).1 = st' := congrArg Prod.fst h
            have := runTrialsFrom_off o fuel (j + 1) st1 j (Or.inl (by omega))
            rwa [hred] at this
          refine ⟨outs, hro, hlen, ?_⟩
          intro n hn
          rw [outDict_eq_of_trialDictsAt hoffList (hvalid n hn)]
          exact hvals n hn
        · have hA1 : st1.algo = some a0 := by
            rw [staticEq_algo hstat]
            exact hA
          have hout1 : st1.algo_out_expr = st.algo_out_expr := staticEq_algo_out_expr hstat
          have hdict : trialDictsAt j st1 = trialDictsAt j st := by
            have := (runTrial_inv o i st).2 j hji
            rwa [hR] at this
          obtain ⟨outs, hro, hlen, hvals⟩ := ih (i + 1) st1 st' h a0 hA1
            (by rw [hout1]; exact hvalid) j (by omega) (by omega)
          rw [trialAlgoInputs_congr o j hstat hdict] at hro
          rw [hout1] at hlen hvals
          exact ⟨outs, hro, hlen, hvals⟩

theorem populateRef_gps (o : Oracle) (st : Sim) (h : st.imu.gps = true) :
    (populateRef o st).ref_gps_data = some o.pathgen.ref_gps := by
  unfold populateRef
  by_cases hm : st.imu.magnetometer <;> simp [h, hm]

theorem populateRef_mag (o : Oracle) (st : Sim) (h : st.imu.magnetometer = true) :
    (populateRef o st).ref_mag_data = some o.pathgen.ref_mag := by
  unfold populateRef
  by_cases hg : st.imu.gps <;> simp [h, hg]

/-! ### C8 -/

/-- C8: a call `run(m)` that completes overwrites the varying and output
payload slots in place for every trial index below the (clamped) new
count — the accelerometer and gyroscope entries become exactly the fresh
synthesis results, the GPS and magnetometer entries likewise whenever the
corresponding sensor is enabled, and for a bound algorithm with registered
output names every declared output container holds at those indices
exactly the value the generated unpacking assignment leaves (the last
returned value for its name) for the fresh algorithm results computed from
that trial's inputs — while at every index at or above the new count all
thirteen per-trial dictionaries keep whatever entries a previous larger
run stored: nothing is implicitly cleared. -/
theorem rerun_overwrites_and_retains (o : Oracle) (st : Sim) (m : ℚ) (st' : Sim)
    (h : Sim.run o st m = (st', none)) :
    (∀ i : Nat, (i : Int) < clampCount m →
      (∃ a, o.acc_gen i st.fs_data (some o.pathgen.ref_accel) st.imu.accel_err st.vib_def =
          Except.ok a ∧ dictGet st'.accel_data i = some a) ∧
      (∃ g, o.gyro_gen i st.fs_data (some o.pathgen.ref_gyro) st.imu.gyro_err =
          Except.ok g ∧ dictGet st'.gyro_data i = some g) ∧
      (st.imu.gps = true →
        ∃ v, o.gps_gen i (some o.pathgen.ref_gps) st.imu.gps_err st.ref_frame_data =
          Except.ok v ∧ dictGet st'.gps_data i = some v) ∧
      (st.imu.magnetometer = true →
        ∃ w, o.mag_gen i (some o.pathgen.ref_mag) st.imu.mag_err = Except.ok w ∧
          dictGet st'.mag_data i = some w) ∧
      (∀ a0, st.algo = some a0 →
        (∀ n ∈ st.algo_out_expr, (dictGet supported_out_def (RegKey.str n)).isSome) →
        ∃ outs, o.algo_run i
            (trialAlgoInputs o (populateRef o { st with sim_count := clampCount m }) i) =
            Except.ok outs ∧
          outs.length = st.algo_out_expr.length ∧
          ∀ n ∈ st.algo_out_expr,
            dictGet (Sim.outDict st' n) i = lastOutputFor st.algo_out_expr outs n)) ∧
    (∀ i : Nat, clampCount m ≤ (i : Int) → trialDictsAt i st' = trialDictsAt i st) := by
  simp only [Sim.run] at h
  cases hL : runTrialsFrom o 0 (clampCount m).toNat
      (populateRef o { st with sim_count := clampCount m }) with
  | mk st2 r =>
    rw [hL] at h
    cases r with
    | some f => exact absurd (congrArg Prod.snd h) (by simp)
    | none =>
      have hpair : (({ st2 with sim_complete := true } : Sim), (none : Option Nat)) =
          (st', none) := h
      have hst' : ({ st2 with sim_complete := true } : Sim) = st' := congrArg Prod.fst hpair
      have hspec := populateRef_spec o { st with sim_count := clampCount m }
      constructor
      · intro i hi
        have hi' : i < (clampCount m).toNat := Int.lt_toNat.mpr hi
        have hw := runTrialsFrom_ok_writes o (clampCount m).toNat 0
          (populateRef o { st with sim_count := clampCount m }) st2 hL i
          (Nat.zero_le i) (by omega)
        rcases hw with ⟨⟨a, ha1, ha2⟩, ⟨g, hg1, hg2⟩⟩
        rw [hspec.2.2.2.1, hspec.2.2.2.2.2.2.2.2.2.2.2.2.2.1, hspec.1] at ha1
        rw [hspec.2.2.2.1, hspec.2.2.2.2.2.2.2.2.2.2.2.2.2.2.1, hspec.1] at hg1
        rw [hspec.2.2.2.2.2.1] at ha1
        have hgm := runTrialsFrom_ok_gpsmag o (clampCount m).toNat 0
          (populateRef o { st with sim_count := clampCount m }) st2 hL i
          (Nat.zero_le i) (by omega)
        refine ⟨⟨a, ha1, ?_⟩, ⟨g, hg1, ?_⟩, ?_, ?_, ?_⟩
        · rw [← hst']
          exact ha2
        · rw [← hst']
          exact hg2
        · intro hflag
          obtain ⟨v, hv1, hv2⟩ := hgm.1 (by rw [hspec.1]; exact hflag)
          rw [hspec.1, hspec.2.2.2.2.1,
            populateRef_gps o { st with sim_count := clampCount m } hflag] at hv1
          refine ⟨v, hv1, ?_⟩
          rw [← hst']
          exact hv2
        · intro hflag
          obtain ⟨w, hw1, hw2⟩ := hgm.2 (by rw [hspec.1]; exact hflag)
          rw [hspec.1,
            populateRef_mag o { st with sim_count := clampCount m } hflag] at hw1
          refine ⟨w, hw1, ?_⟩
          rw [← hst']
          exact hw2
        · intro a0 hA hvalid
          obtain ⟨outs, ho1, ho2, ho3⟩ := runTrialsFrom_ok_algo o (clampCount m).toNat 0
            (populateRef o { st with sim_count := clampCount m }) st2 hL a0
            (by rw [hspec.2.2.2.2.2.2.1]; exact hA)
            (by rw [hspec.2.2.2.2.2.2.2.2.1]; exact hvalid)
            i (Nat.zero_le i) (by omega)
          rw [hspec.2.2.2.2.2.2.2.2.1] at ho2 ho3
          refine ⟨outs, ho1, ho2, ?_⟩
          intro n hn
          have hdq : trialDictsAt i st' = trialDictsAt i st2 :=
            (congrArg (trialDictsAt i) hst').symm.trans rfl
          rw [outDict_eq_of_trialDictsAt hdq (hvalid n hn)]
          exact ho3 n hn
      · intro i hi
        have hi' : (clampCount m).toNat ≤ i := Int.toNat_le.mpr hi
        have hoff := runTrialsFrom_off o (clampCount m).toNat 0
          (populateRef o { st with sim_count := clampCount m }) i (Or.inr (by omega))
        rw [hL] at hoff
        have hP : trialDictsAt i (populateRef o { st with sim_count := clampCount m }) =
            trialDictsAt i ({ st with sim_count := clampCount m } : Sim) :=
          hspec.2.2.2.2.2.2.2.2.2.2.2.2.2.2.2 i
        rw [← hst']
        calc trialDictsAt i ({ st2 with sim_complete := true } : Sim)
            = trialDictsAt i st2 := rfl
          _ = trialDictsAt i (populateRef o { st with sim_count := clampCount m }) := hoff
          _ = trialDictsAt i ({ st with sim_count := clampCount m } : Sim) := hP
          _ = trialDictsAt i st := rfl

/-- The state after a completed three-trial run on `testSim`. -/
def simAfter3 : Sim := (Sim.run okOracle testSim 3).1

/-- Witness for C8: re-running with count 2 after a count-3 run; the
retention half applies to trial index 2 of the earlier run. -/
theorem rerun_overwrites_and_retains_witness :
    Sim.run okOracle simAfter3 2 = ((Sim.run okOracle simAfter3 2).1, none) ∧
    ∀ i : Nat, clampCount 2 ≤ (i : Int) →
      trialDictsAt i ((Sim.run okOracle simAfter3 2).1) = trialDictsAt i simAfter3 :=
  ⟨rfl, (rerun_overwrites_and_retains okOracle simAfter3 2
    ((Sim.run okOracle simAfter3 2).1) rfl).2⟩

/-! ### C3 -/

/-- The output names a (possibly absent) bound algorithm declares. -/
def algoOutputs : Option Algorithm → List String
  | some a => a.output
  | none => []

theorem supported_in_varying_def_flags (imu : ImuCfg) :
    supported_in_varying_def imu =
      supported_in_varying_def ⟨imu.gps, imu.magnetometer, 0, 0, 0, 0⟩ := rfl

theorem varying_keys_nodup (imu : ImuCfg) : (dkeys (supported_in_varying_def imu)).Nodup := by
  rw [supported_in_varying_def_flags]
  cases hg : imu.gps <;> cases hm : imu.magnetometer <;> decide

theorem run_registries (o : Oracle) (st : Sim) (q : ℚ) :
    ((Sim.run o st q).1).supported_in_constant = st.supported_in_constant ∧
    ((Sim.run o st q).1).supported_in_varying = st.supported_in_varying ∧
    ((Sim.run o st q).1).supported_out = st.supported_out ∧
    ((Sim.run o st q).1).algo = st.algo ∧
    ((Sim.run o st q).1).algo_out_expr = st.algo_out_expr := by
  simp only [Sim.run]
  cases hL : runTrialsFrom o 0 (clampCount q).toNat
      (populateRef o { st with sim_count := clampCount q }) with
  | mk st2 r =>
    have hstat : staticEq (populateRef o { st with sim_count := clampCount q }) st2 := by
      have hs := runTrialsFrom_static o (clampCount q).toNat 0
        (populateRef o { st with sim_count := clampCount q })
      rw [hL] at hs
      exact hs
    have hspec := populateRef_spec o { st with sim_count := clampCount q }
    have e1 : st2.supported_in_constant = st.supported_in_constant := by
      rw [staticEq_supported_in_constant hstat, hspec.2.2.2.2.2.2.2.2.2.1]
    have e2 : st2.supported_in_varying = st.supported_in_varying := by
      rw [staticEq_supported_in_varying hstat, hspec.2.2.2.2.2.2.2.2.2.2.1]
    have e3 : st2.supported_out = st.supported_out := by
      rw [staticEq_supported_out hstat, hspec.2.2.2.2.2.2.2.2.2.2.2.1]
    have e4 : st2.algo = st.algo := by
      rw [staticEq_algo hstat, hspec.2.2.2.2.2.2.1]
    have e5 : st2.algo_out_expr = st.algo_out_expr := by
      rw [staticEq_algo_out_expr hstat, hspec.2.2.2.2.2.2.2.2.1]
    cases r <;> exact ⟨e1, e2, e3, e4, e5⟩

/-- C3: on a freshly constructed engine `results()` returns, without
raising, the cached empty dictionary — in particular it contains no
algorithm output and (vacuously) only constant/varying registry entries.
After a completed `run`, the returned dictionary maps every output name
the bound algorithm declares to its output-registry description, maps
every other key exactly as the union (dict-update) of the constant-input
and varying-input registries does, and contains no key outside those
three sources. -/
theorem results_projection (fs : ℚ × ℚ × ℚ) (imu : ImuCfg) (path : Table)
    (mode env : PyArg) (algorithm : Option Algorithm) (st : Sim)
    (hinit : Sim.init fs imu path mode env algorithm = .ok st) :
    ((st.results).2 = [] ∧
      ∀ s ∈ algoOutputs algorithm, dictGet (st.results).2 (RegKey.str s) = none) ∧
    (∀ (o : Oracle) (q : ℚ) (st1 : Sim), Sim.run o st q = (st1, none) →
      (∀ s ∈ algoOutputs algorithm,
        dictGet (st1.results).2 (RegKey.str s) = dictGet supported_out_def (RegKey.str s)) ∧
      (∀ k, (∀ s ∈ algoOutputs algorithm, k ≠ RegKey.str s) →
        dictGet (st1.results).2 k =
          if (dictGet (supported_in_varying_def imu) k).isSome
          then dictGet (supported_in_varying_def imu) k
          else dictGet (supported_in_constant_def imu) k) ∧
      (∀ k, k ∈ dkeys (st1.results).2 →
        k ∈ dkeys (supported_in_constant_def imu) ∨
        k ∈ dkeys (supported_in_varying_def imu) ∨
        ∃ s ∈ algoOutputs algorithm, k = RegKey.str s)) := by
  obtain ⟨hflag, _, _, hres, _, hconst, hvary, hout, halgo, hbind⟩ :=
    Sim.init_ok_spec _ _ _ _ _ _ _ hinit
  have hrpre : st.results = (st, st.res) := by
    unfold Sim.results
    rw [if_neg (by rw [hflag]; simp)]
  constructor
  · constructor
    · rw [hrpre]
      exact hres
    · intro s _
      rw [hrpre]
      show dictGet st.res (RegKey.str s) = none
      rw [hres]
      rfl
  · intro o q st1 hrun
    have hrun1 : (Sim.run o st q).1 = st1 := congrArg Prod.fst hrun
    have hflag1 : st1.sim_complete = true := run_flag_of_none o st q st1 hrun
    have hreg := run_registries o st q
    rw [hrun1] at hreg
    have hc1 : st1.supported_in_constant = supported_in_constant_def imu := by
      rw [hreg.1, hconst]
    have hc2 : st1.supported_in_varying = supported_in_varying_def imu := by
      rw [hreg.2.1, hvary]
    have hc3 : st1.supported_out = supported_out_def := by
      rw [hreg.2.2.1, hout]
    have hc4 : st1.algo = algorithm := by
      rw [hreg.2.2.2.1, halgo]
    have hres1 : (st1.results).2 = addAlgoOutputs supported_out_def
        (dictUpdate (supported_in_constant_def imu) (supported_in_varying_def imu))
        (algoOutputs algorithm) := by
      unfold Sim.results
      rw [if_pos hflag1]
      show (match st1.algo with
        | some a => addAlgoOutputs st1.supported_out
            (dictUpdate st1.supported_in_constant st1.supported_in_varying) a.output
        | none => dictUpdate st1.supported_in_constant st1.supported_in_varying) = _
      cases h2 : st1.algo with
      | none =>
        have ha : algorithm = none := hc4.symm.trans h2
        rw [hc1, hc2, ha]
        rfl
      | some a2 =>
        have ha : algorithm = some a2 := hc4.symm.trans h2
        rw [hc1, hc2, hc3, ha]
        rfl
    have hvalids : ∀ s ∈ algoOutputs algorithm,
        (dictGet supported_out_def (RegKey.str s)).isSome := by
      cases algorithm with
      | none => intro s hs; exact absurd hs (List.not_mem_nil s)
      | some a => exact (hbind a rfl).2.1
    refine ⟨?_, ?_, ?_⟩
    · intro s hs
      rw [hres1]
      rw [dictGet_addAlgoOutputs_mem supported_out_def (algoOutputs algorithm) _ s hs]
      obtain ⟨d, hd⟩ := Option.isSome_iff_exists.mp (hvalids s hs)
      rw [hd]
      rfl
    · intro k hknot
      rw [hres1]
      rw [dictGet_addAlgoOutputs_not_mem supported_out_def (algoOutputs algorithm) _ k
        (fun s hs => fun e => hknot s hs e.symm)]
      exact dictGet_dictUpdate _ _ k (varying_keys_nodup imu)
    · intro k hk
      rw [hres1] at hk
      rcases dkeys_addAlgoOutputs_subset supported_out_def (algoOutputs algorithm) _ k hk
        with h1 | h2
      · rcases dkeys_dictUpdate_subset _ _ k h1 with h3 | h4
        · exact Or.inl h3
        · exact Or.inr (Or.inl h4)
      · exact Or.inr (Or.inr h2)

/-- Witness for C3: the concrete no-sensor engine before any run. -/
theorem results_projection_witness :
    Sim.init wfs wImu wTable (PyArg.pystr "flight") (PyArg.pystr "2g_random") none =
      .ok testSim ∧ (testSim.results).2 = [] :=
  ⟨rfl,
   ((results_projection wfs wImu wTable (PyArg.pystr "flight") (PyArg.pystr "2g_random")
     none testSim rfl).1).1⟩

/-! ### C6 -/

theorem foldl_eraseFirst_aux (p : Int → Bool) :
    ∀ (inv : List Int) (a : Int) (t : List Int),
      (∀ x ∈ inv, p x = false) → p a = true →
      List.foldl eraseFirst (a :: t) inv = a :: List.foldl eraseFirst t inv := by
  intro inv
  induction inv with
  | nil => intro a t _ _; rfl
  | cons b bs ih =>
    intro a t hinv ha
    have hb : p b = false := hinv b (List.mem_cons_self b bs)
    have hab : ¬ a = b := fun e => by rw [e, hb] at ha; cases ha
    show List.foldl eraseFirst (eraseFirst (a :: t) b) bs =
      a :: List.foldl eraseFirst (eraseFirst t b) bs
    rw [show eraseFirst (a :: t) b = a :: eraseFirst t b from by simp [eraseFirst, hab]]
    exact ih a (eraseFirst t b) (fun x hx => hinv x (List.mem_cons_of_mem b hx)) ha

theorem foldl_eraseFirst_filter (p : Int → Bool) :
    ∀ (l : List Int),
      List.foldl eraseFirst l (l.filter (fun x => !(p x))) = l.filter p := by
  intro l
  induction l with
  | nil => rfl
  | cons a t ih =>
    by_cases ha : p a = true
    · rw [show (a :: t).filter (fun x => !(p x)) = t.filter (fun x => !(p x)) from by
        simp [List.filter_cons, ha]]
      have hall : ∀ x ∈ t.filter (fun x => !(p x)), p x = false := by
        intro x hx
        have hx2 := List.of_mem_filter hx
        simpa using hx2
      rw [foldl_eraseFirst_aux p _ a t hall ha, ih]
      simp [List.filter_cons, ha]
    · have ha' : p a = false := by simpa using ha
      rw [show (a :: t).filter (fun x => !(p x)) = a :: t.filter (fun x => !(p x)) from by
        simp [List.filter_cons, ha']]
      show List.foldl eraseFirst (eraseFirst (a :: t) a) (t.filter fun x => !(p x)) = _
      rw [show eraseFirst (a :: t) a = t from by simp [eraseFirst]]
      rw [ih]
      simp [List.filter_cons, ha']

/-- C6: the trial selector of `plot` resolves as the claim says — `None`
to all trial indices `0..sim_count-1`, a scalar to a one-element list, a
list to itself (after elementwise `int()`) — and the surviving indices
are exactly the in-range ones while exactly the out-of-range ones are
warned about and removed; the whole resolution is a total function, so no
exception is raised for out-of-range indices. -/
theorem plot_sim_idx_resolution (st : Sim) (what : List String) (sel : SimIdxArg) :
    (st.plot what sel).valid_idx =
      (convertSimIdx sel st.sim_count).filter
        (fun x => decide (0 ≤ x) && decide (x < st.sim_count)) ∧
    (st.plot what sel).warned_idx =
      (convertSimIdx sel st.sim_count).filter
        (fun x => decide (st.sim_count ≤ x) || decide (x < 0)) ∧
    convertSimIdx SimIdxArg.absent st.sim_count =
      (List.range st.sim_count.toNat).map Int.ofNat ∧
    (∀ n : Int, convertSimIdx (SimIdxArg.scalarInt n) st.sim_count = [n]) ∧
    (∀ xs : List PyNum, convertSimIdx (SimIdxArg.lst xs) st.sim_count = xs.map PyNum.toInt) := by
  have hmain : ∀ (l : List Int) (c : Int),
      List.foldl eraseFirst l (l.filter (fun x => decide (c ≤ x) || decide (x < 0))) =
        l.filter (fun x => decide (0 ≤ x) && decide (x < c)) := by
    intro l c
    have hpt : ∀ x ∈ l, (decide (c ≤ x) || decide (x < 0)) =
        !(decide (0 ≤ x) && decide (x < c)) := by
      intro x _
      by_cases h1 : c ≤ x <;> by_cases h2 : x < 0 <;> (simp [h1, h2]; try omega)
    rw [List.filter_congr hpt]
    exact foldl_eraseFirst_filter (fun x => decide (0 ≤ x) && decide (x < c)) l
  refine ⟨?_, rfl, rfl, fun n => rfl, fun xs => rfl⟩
  show (resolveSimIdx sel st.sim_count).1 = _
  simp only [resolveSimIdx]
  exact hmain (convertSimIdx sel st.sim_count) st.sim_count

/-! ### C10 -/

/-- C10: `plot` accepts float trial selectors although its docstring
declares integers: a scalar float `q` is handled exactly like the integer
`int(q)` (truncation toward zero, applied before the range check), floats
inside a list are converted elementwise the same way, and a selector of
`0.9` renders trial 0 whenever the engine has at least one trial. -/
theorem plot_float_sim_idx (st : Sim) (what : List String) (q : ℚ) (qs : List ℚ) :
    st.plot what (SimIdxArg.scalarFloat q) = st.plot what (SimIdxArg.scalarInt (pyInt q)) ∧
    convertSimIdx (SimIdxArg.lst (qs.map PyNum.float)) st.sim_count = qs.map pyInt ∧
    (1 ≤ st.sim_count →
      (st.plot what (SimIdxArg.scalarFloat (9 / 10))).valid_idx = [0]) := by
  refine ⟨rfl, ?_, ?_⟩
  · simp [convertSimIdx, List.map_map]
    exact fun a _ => rfl
  · intro hn
    have h0 : pyInt (9 / 10 : ℚ) = 0 := by
      unfold pyInt
      rw [if_neg (by norm_num), Int.floor_eq_zero_iff]
      exact ⟨by norm_num, by norm_num⟩
    show (resolveSimIdx (SimIdxArg.scalarFloat (9 / 10)) st.sim_count).1 = [0]
    simp only [resolveSimIdx, convertSimIdx, h0]
    rw [show ([0] : List Int).filter
        (fun x => decide (st.sim_count ≤ x) || decide (x < 0)) = [] from by
      simp [show ¬(st.sim_count ≤ (0 : Int)) from by omega]]
    rfl

/-- Witness for C10: on the one-trial engine, selector `0.9` resolves to
trial 0. -/
theorem plot_float_sim_idx_witness :
    1 ≤ testSim.sim_count ∧
    (testSim.plot ["gyro"] (SimIdxArg.scalarFloat (9 / 10))).valid_idx = [0] :=
  ⟨by decide,
   (plot_float_sim_idx testSim ["gyro"] (9 / 10) []).2.2 (by decide)⟩
